import Mathlib

/-!
# The `flags:` keyword of the detection engine (`src/detect-flags.c`)

A shallow embedding of `DetectFlagsParse` (the compiler of a textual flag
specification such as `+AP,SR` into a `DetectFlagsData` descriptor) and of
`DetectFlagsMatch` (the evaluation of a descriptor against the TCP flag byte of
a packet), followed by theorems about them.

Conventions of the embedding:

* a `uint8_t` is a `Nat` below 256; a store into a `uint8_t` is written `u8`;
* arithmetic that C performs after integer promotion is done in `Int`;
* a C string is a `List Char` (its characters before the terminating NUL);
* a pointer that may be `NULL` is an `Option`;
* `malloc` is assumed to succeed, and `found`/`ignore` are unbounded counters
  (the C `int` counters cannot overflow on a text shorter than 2^31 characters).
-/

namespace DetectFlags

/-! ## Constants -/

/-- Modelled from the spec: the `TH_*` macros come from `decode-tcp.h`, which is
not part of the sources at hand. The spec calls them "the 8 single-bit flags in
a TCP header (FIN, SYN, RST, PSH, ACK, URG, plus two reserved bits), packed
into one byte"; the values are the bit positions of the TCP header. -/
def TH_FIN : Nat := 0x01

/-- Modelled from the spec: SYN bit of the TCP flag byte (see `TH_FIN`). -/
def TH_SYN : Nat := 0x02

/-- Modelled from the spec: RST bit of the TCP flag byte (see `TH_FIN`). -/
def TH_RST : Nat := 0x04

/-- Modelled from the spec: PSH bit of the TCP flag byte (see `TH_FIN`). -/
def TH_PUSH : Nat := 0x08

/-- Modelled from the spec: ACK bit of the TCP flag byte (see `TH_FIN`). -/
def TH_ACK : Nat := 0x10

/-- Modelled from the spec: URG bit of the TCP flag byte (see `TH_FIN`). -/
def TH_URG : Nat := 0x20

/-- Modelled from the spec: second reserved bit of the TCP flag byte (see `TH_FIN`). -/
def TH_RES2 : Nat := 0x40

/-- Modelled from the spec: first reserved bit of the TCP flag byte (see `TH_FIN`). -/
def TH_RES1 : Nat := 0x80

/-- Source: `#define MODIFIER_NOT 1`. -/
def MODIFIER_NOT : Nat := 1

/-- Source: `#define MODIFIER_PLUS 2`. -/
def MODIFIER_PLUS : Nat := 2

/-- Source: `#define MODIFIER_ANY 3`. -/
def MODIFIER_ANY : Nat := 3

/-- Store into a `uint8_t`: the value is reduced modulo 256. -/
def u8 (n : Nat) : Nat := n % 256

/-! ## Data model -/

/-- The descriptor `DetectFlagsData` (three `uint8_t` fields). `modifier` is 0
when the text has no prefix (the `memset` in `DetectFlagsParse`). In
`ignored_flags` a 0 bit means "ignored". -/
structure DetectFlagsData where
  flags : Nat
  modifier : Nat
  ignored_flags : Nat
deriving DecidableEq

/-- The three fields of a descriptor are bytes. -/
def DetectFlagsData.IsBytes (de : DetectFlagsData) : Prop :=
  de.flags < 256 ∧ de.modifier < 256 ∧ de.ignored_flags < 256

instance (de : DetectFlagsData) : Decidable de.IsBytes := by
  unfold DetectFlagsData.IsBytes; infer_instance

/-- The TCP header as far as the keyword reads it: the flag byte `th_flags`. -/
structure TCPHdr where
  th_flags : Nat
deriving DecidableEq

/-- The IPv4 header; none of its fields is read here. -/
structure IPV4Hdr where
deriving DecidableEq

/-- The packet as far as the keyword reads it: the pointers `ip4h` and `tcph`,
either of which may be `NULL`. -/
structure Packet where
  ip4h : Option IPV4Hdr
  tcph : Option TCPHdr
deriving DecidableEq

/-- Modelled from the spec: the macro `PKT_IS_IPV4` comes from `decode.h`, which
is not part of the sources at hand; it tells "whether the packet is of a
recognized network-layer version". The unit tests make a packet IPv4 by
setting `p.ip4h = &ipv4h`, so the macro is the test `p->ip4h != NULL`. -/
def PKT_IS_IPV4 (p : Packet) : Bool := p.ip4h.isSome

/-! ## `DetectFlagsMatch` -/

/-- Source: `DetectFlagsMatch` (lines 86-118). `ctx` is `m->ctx`. The packet
pointer itself is taken to be valid: the source dereferences it in
`PKT_IS_IPV4(p)` before it tests `!p`. The result is the returned `int`. -/
def DetectFlagsMatch (p : Packet) (ctx : Option DetectFlagsData) : Nat :=
  match ctx with
  | none => 0
  | some de =>
    if !PKT_IS_IPV4 p then 0
    else
      match p.tcph with
      | none => 0
      | some tcph =>
        -- flags = p->tcph->th_flags; flags &= (de->flags & de->ignored_flags);
        let flags := u8 (u8 tcph.th_flags &&& (de.flags &&& de.ignored_flags))
        if de.modifier = MODIFIER_ANY then
          if (flags &&& de.flags) > 0 then 1 else 0
        else if de.modifier = MODIFIER_PLUS then
          if (flags &&& de.flags) = de.flags ∧
              ((tcph.th_flags : Int) - (flags : Int)) + (de.ignored_flags : Int) ≠ 0xff
          then 1 else 0
        else if de.modifier = MODIFIER_NOT then
          if (flags &&& de.flags) ≠ de.flags then 1 else 0
        else
          if (flags &&& de.flags) = de.flags then 1 else 0

/-! ## The grammar `PARSE_REGEX` -/

/-- The class `\s` of the regular expression library: space, HT, LF, VT, FF, CR
(VT belongs to `\s` since PCRE 8.34; nothing below depends on it). -/
def isSpace (c : Char) : Bool :=
  c.toNat = 32 || c.toNat = 9 || c.toNat = 10 || c.toNat = 11 || c.toNat = 12 || c.toNat = 13

/-- The class `[\+\*!]` of `PARSE_REGEX`. -/
def isModifierChar (c : Char) : Bool :=
  c = '+' || c = '*' || c = '!'

/-- The class `[SAPRFU120]` of `PARSE_REGEX`. The expression is compiled with
`opts = 0`, that is without `PCRE_CASELESS`: the class holds upper-case letters
only. -/
def isFlagChar (c : Char) : Bool :=
  c = 'S' || c = 'A' || c = 'P' || c = 'R' || c = 'F' || c = 'U' ||
  c = '1' || c = '2' || c = '0'

/-- The substrings captured by the three groups of `PARSE_REGEX`; a group that
took no part in the match is `none`. Group 2 takes part in every match. -/
structure Captures where
  group1 : Option (List Char)
  group2 : List Char
  group3 : Option (List Char)
deriving DecidableEq

/-- The piece `(?:([\+\*!]))?` : one modifier character when there is one. -/
def takeModifier (s : List Char) : Option (List Char) × List Char :=
  match s with
  | [] => (none, [])
  | c :: r => if isModifierChar c then (some [c], r) else (none, c :: r)

/-- The piece `(?:\s*,\s*([SAPRFU120]+))?\s*$`, run on what follows group 2
and the white space after it: `none` is a failed match, `some g3` a match
with third group `g3`. -/
def matchIgnorePart (s : List Char) : Option (Option (List Char)) :=
  match s with
  | [] => some none
  | c :: r =>
    if c = ',' then
      let s6 := r.dropWhile isSpace
      let g3 := s6.takeWhile isFlagChar
      let s7 := s6.dropWhile isFlagChar
      if g3 = [] then none
      else if s7.dropWhile isSpace = [] then some (some g3)
      else none
    else none

/-- Source: `pcre_exec(parse_regex, ..., rawstr, strlen(rawstr), 0, 0, ov, ..)`
with `PARSE_REGEX =
"^\\s*(?:([\\+\\*!]))?\\s*([SAPRFU120]+)(?:\\s*,\\s*([SAPRFU120]+))?\\s*$"`.
The classes of the expression are pairwise disjoint, so the anchored match is
found by one left-to-right pass taking each repetition as long as it goes.
`none` is `ret < 1`. -/
def pcre_exec (rawstr : List Char) : Option Captures :=
  let s1 := rawstr.dropWhile isSpace
  let g1 := (takeModifier s1).1
  let s2 := (takeModifier s1).2
  let s3 := s2.dropWhile isSpace
  let g2 := s3.takeWhile isFlagChar
  let s4 := s3.dropWhile isFlagChar
  if g2 = [] then none
  else
    match matchIgnorePart (s4.dropWhile isSpace) with
    | none => none
    | some g3 => some ⟨g1, g2, g3⟩

/-! ## `DetectFlagsParse` -/

/-- Source: the loop over `args[0]` (lines 172-191); the result is
`de->modifier`. -/
def parseModifier : List Char → Nat → Nat
  | [], modifier => modifier
  | c :: rest, modifier =>
    if c = '!' then parseModifier rest MODIFIER_NOT
    else if c = '+' then parseModifier rest MODIFIER_PLUS
    else if c = '*' then parseModifier rest MODIFIER_ANY
    else parseModifier rest modifier

/-- How the loop over the flagset ends: `returned` is the `return de` of
`case '0'` (with `de->flags = 0`), `finished flags found` is the end of the
string. -/
inductive FlagScan where
  | returned : FlagScan
  | finished (flags found : Nat) : FlagScan
deriving DecidableEq

/-- Source: the loop over `args[1]` (lines 195-246), from the state
`de->flags = flags`, `found`. -/
def scanFlags : List Char → Nat → Nat → FlagScan
  | [], flags, found => FlagScan.finished flags found
  | c :: rest, flags, found =>
    if c = 'S' ∨ c = 's' then scanFlags rest (u8 (flags ||| TH_SYN)) (found + 1)
    else if c = 'A' ∨ c = 'a' then scanFlags rest (u8 (flags ||| TH_ACK)) (found + 1)
    else if c = 'F' ∨ c = 'f' then scanFlags rest (u8 (flags ||| TH_FIN)) (found + 1)
    else if c = 'R' ∨ c = 'r' then scanFlags rest (u8 (flags ||| TH_RST)) (found + 1)
    else if c = 'P' ∨ c = 'p' then scanFlags rest (u8 (flags ||| TH_PUSH)) (found + 1)
    else if c = 'U' ∨ c = 'u' then scanFlags rest (u8 (flags ||| TH_URG)) (found + 1)
    else if c = '1' then scanFlags rest (u8 (flags ||| TH_RES1)) (found + 1)
    else if c = '2' then scanFlags rest (u8 (flags ||| TH_RES2)) (found + 1)
    else if c = '0' then FlagScan.returned
    else scanFlags rest flags 0

/-- The statement `x &= ~m` on a `uint8_t x`: `~m` is computed in `int`, and
the conversion back to `uint8_t` keeps its low eight bits. -/
def clearBits (x m : Nat) : Nat := u8 (x &&& (0xff ^^^ m))

/-- Source: the loop over `args[2]` (lines 255-304), from the state
`de->ignored_flags = ign`, `ignore`; the result is the final pair. -/
def scanIgnored : List Char → Nat → Nat → Nat × Nat
  | [], ign, ignore => (ign, ignore)
  | c :: rest, ign, ignore =>
    if c = 'S' ∨ c = 's' then scanIgnored rest (clearBits ign TH_SYN) (ignore + 1)
    else if c = 'A' ∨ c = 'a' then scanIgnored rest (clearBits ign TH_ACK) (ignore + 1)
    else if c = 'F' ∨ c = 'f' then scanIgnored rest (clearBits ign TH_FIN) (ignore + 1)
    else if c = 'R' ∨ c = 'r' then scanIgnored rest (clearBits ign TH_RST) (ignore + 1)
    else if c = 'P' ∨ c = 'p' then scanIgnored rest (clearBits ign TH_PUSH) (ignore + 1)
    else if c = 'U' ∨ c = 'u' then scanIgnored rest (clearBits ign TH_URG) (ignore + 1)
    else if c = '1' then scanIgnored rest (clearBits ign TH_RES1) (ignore + 1)
    else if c = '2' then scanIgnored rest (clearBits ign TH_RES2) (ignore + 1)
    else if c = '0' then scanIgnored rest ign ignore
    else scanIgnored rest ign 0

/-- Source: `DetectFlagsParse` (lines 129-321); `none` is the `NULL` of the
error exit. `pcre_get_substring` is called with `MAX_SUBSTRINGS` as its string
count, so it turns the unset group 1 of a text without modifier into the empty
string: `args[0]` is never `NULL`. `args[2]` stays `NULL` when group 3 took no
part (`ret` is then 3). -/
def DetectFlagsParse (rawstr : List Char) : Option DetectFlagsData :=
  match pcre_exec rawstr with
  | none => none
  | some cap =>
    let args0 := cap.group1.getD []
    let args1 := cap.group2
    let args2 := cap.group3
    -- memset(de,0,sizeof(DetectFlagsData)); de->ignored_flags = 0xff;
    let modifier := parseModifier args0 0
    match scanFlags args1 0 0 with
    | FlagScan.returned => some ⟨0, modifier, 0xff⟩
    | FlagScan.finished flags found =>
      if found = 0 then none
      else
        match args2 with
        | none => some ⟨flags, modifier, 0xff⟩
        | some ig =>
          if (scanIgnored ig 0xff 0).2 = 0 then none
          else some ⟨flags, modifier, (scanIgnored ig 0xff 0).1⟩

/-- A packet as the unit tests build it: IPv4, with a TCP header whose flag
byte is `observed`. -/
def tcpPacket (observed : Nat) : Packet := ⟨some ⟨⟩, some ⟨observed⟩⟩


/-- The Plus rule in the wording of section 4.2 of the specification:
`relevant == required_flags` and `(observed - relevant) + (~ignored_flags & 0xFF)`
different from `0xFF`. It is compared with the rule of the source in the
theorems on the Plus modifier. -/
def specPlusRule (required ignored observed : Nat) : Bool :=
  decide ((observed &&& required &&& ignored) = required ∧
    (observed - (observed &&& required &&& ignored)) + ((0xff ^^^ ignored) &&& 0xff) ≠ 0xff)

/-! ## The unit tests of the source -/

/-- The common body of `FlagsTestParse03` to `FlagsTestParse11`: parse `text`,
leave through `error` (result 0) when the parse fails or `reject` holds of the
descriptor, else run `DetectFlagsMatch` on an IPv4 TCP packet with flag byte
`observed` and return 1 when it matched, 0 when it did not. `SigMatchAlloc` is
assumed to succeed. -/
def runMatchTest (text : String) (reject : DetectFlagsData → Bool) (observed : Nat) : Nat :=
  match DetectFlagsParse text.toList with
  | none => 0
  | some de =>
    if reject de then 0
    else if DetectFlagsMatch (tcpPacket observed) (some de) ≠ 0 then 1 else 0

/-- Source: `FlagsTestParse01` (registered with expected result 1). -/
def FlagsTestParse01 : Nat :=
  match DetectFlagsParse "S".toList with
  | none => 0
  | some de => if de.flags = TH_SYN then 1 else 0

/-- Source: `FlagsTestParse02` (registered with expected result 0). -/
def FlagsTestParse02 : Nat :=
  match DetectFlagsParse "G".toList with
  | none => 0
  | some _ => 1

/-- Source: `FlagsTestParse03` (registered with expected result 1). -/
def FlagsTestParse03 : Nat :=
  runMatchTest "AP" (fun de => de.flags != (TH_ACK ||| TH_PUSH))
    (TH_ACK ||| TH_PUSH ||| TH_SYN ||| TH_RST)

/-- Source: `FlagsTestParse04` (registered with expected result 0). -/
def FlagsTestParse04 : Nat :=
  runMatchTest "A" (fun de => de.flags != TH_ACK) TH_SYN

/-- Source: `FlagsTestParse05` (registered with expected result 0). The test
compares `de->ignored_flags` itself, not `0xff - de->ignored_flags`, with
`TH_SYN|TH_RST`. -/
def FlagsTestParse05 : Nat :=
  runMatchTest "+AP,SR"
    (fun de => de.modifier != MODIFIER_PLUS || de.flags != (TH_ACK ||| TH_PUSH) ||
      de.ignored_flags != (TH_SYN ||| TH_RST))
    (TH_ACK ||| TH_PUSH ||| TH_SYN ||| TH_RST)

/-- Source: `FlagsTestParse06` (registered with expected result 1). -/
def FlagsTestParse06 : Nat :=
  runMatchTest "+AP,UR"
    (fun de => de.modifier != MODIFIER_PLUS || de.flags != (TH_ACK ||| TH_PUSH) ||
      (0xff - de.ignored_flags) != (TH_URG ||| TH_RST))
    (TH_ACK ||| TH_PUSH ||| TH_SYN ||| TH_RST)

/-- Source: `FlagsTestParse07` (registered with expected result 0). -/
def FlagsTestParse07 : Nat :=
  runMatchTest "*AP"
    (fun de => de.modifier != MODIFIER_ANY || de.flags != (TH_ACK ||| TH_PUSH))
    (TH_SYN ||| TH_RST)

/-- Source: `FlagsTestParse08` (registered with expected result 1). -/
def FlagsTestParse08 : Nat :=
  runMatchTest "*SA"
    (fun de => de.modifier != MODIFIER_ANY || de.flags != (TH_ACK ||| TH_SYN))
    (TH_SYN ||| TH_RST)

/-- Source: `FlagsTestParse09` (registered with expected result 1). -/
def FlagsTestParse09 : Nat :=
  runMatchTest "!PA"
    (fun de => de.modifier != MODIFIER_NOT || de.flags != (TH_ACK ||| TH_PUSH))
    (TH_SYN ||| TH_RST)

/-- Source: `FlagsTestParse10` (registered with expected result 1). -/
def FlagsTestParse10 : Nat :=
  runMatchTest "!AP"
    (fun de => de.modifier != MODIFIER_NOT || de.flags != (TH_ACK ||| TH_PUSH))
    (TH_SYN ||| TH_RST)

/-- Source: `FlagsTestParse11` (registered with expected result 0). -/
def FlagsTestParse11 : Nat :=
  runMatchTest "*AP,SR"
    (fun de => de.modifier != MODIFIER_ANY || de.flags != (TH_ACK ||| TH_PUSH) ||
      (0xff - de.ignored_flags) != (TH_SYN ||| TH_RST))
    (TH_SYN ||| TH_RST ||| TH_URG)

/-! ## Vocabulary of the statements on `DetectFlagsParse` -/

/-- The letters of a flagset that stand for a bit: `S A F R P U 1 2` (the
alphabet of the grammar without `0`). -/
def isFlagLetter (c : Char) : Bool :=
  c = 'S' || c = 'A' || c = 'F' || c = 'R' || c = 'P' || c = 'U' || c = '1' || c = '2'

/-- The bit a letter stands for: `S` is `TH_SYN`, `A` is `TH_ACK`, `F` is
`TH_FIN`, `R` is `TH_RST`, `P` is `TH_PUSH`, `U` is `TH_URG`, `1` is `TH_RES1`,
`2` is `TH_RES2`; any other character stands for no bit. -/
def letterBit (c : Char) : Nat :=
  if c = 'S' then TH_SYN
  else if c = 'A' then TH_ACK
  else if c = 'F' then TH_FIN
  else if c = 'R' then TH_RST
  else if c = 'P' then TH_PUSH
  else if c = 'U' then TH_URG
  else if c = '1' then TH_RES1
  else if c = '2' then TH_RES2
  else 0

/-- The bitwise OR of the bits of the letters of a text. -/
def orOfLetters (fs : List Char) : Nat :=
  fs.foldl (fun acc c => acc ||| letterBit c) 0

/-! ## The remainder test of Plus in two arithmetics -/

/-- The remainder test of the Plus branch as the source computes it (line 105),
after the integer promotion of its `uint8_t` operands to C `int`:
`((th_flags - flags) + ignored_flags) != 0xff`, with
`flags = observed & required_flags & ignored_flags`. -/
def plusRemainderInt (required ignored observed : Nat) : Bool :=
  decide (((observed : Int) - ((observed &&& required &&& ignored : Nat) : Int))
    + (ignored : Int) ≠ 0xff)

/-- The same expression in the wording of the specification: evaluated in
unsigned 8-bit arithmetic, the difference and the sum each reduced modulo
256. -/
def plusRemainderU8 (required ignored observed : Nat) : Bool :=
  decide (u8 (u8 (observed + 256 - (observed &&& required &&& ignored)) + ignored) ≠ 0xff)

/-! ## The shape of a clause -/

/-- The modifier slot of a clause: empty, or one of the characters `!`, `+`,
`*` (the piece `(?:([\+\*!]))?` of the grammar). -/
def isModifierSlot (m : List Char) : Bool :=
  match m with
  | [] => true
  | [c] => isModifierChar c
  | _ => false

/-- What group 1 of `PARSE_REGEX` captures for a modifier slot: nothing for the
empty slot, the modifier character otherwise. -/
def groupOfSlot (m : List Char) : Option (List Char) :=
  match m with
  | [] => none
  | _ => some m

/-- The modifier a prefix stands for: `!` is Not, `+` is Plus, `*` is Any, no
prefix is None (0). -/
def modifierOfSlot (m : List Char) : Nat :=
  if m = ['!'] then MODIFIER_NOT
  else if m = ['+'] then MODIFIER_PLUS
  else if m = ['*'] then MODIFIER_ANY
  else 0

/-- A clause without ignore part, `ws* modifier? ws* flagset ws*`, written from
its pieces. -/
def clauseText (w1 m w2 fs w3 : List Char) : List Char :=
  w1 ++ m ++ w2 ++ fs ++ w3

/-- A clause with ignore part,
`ws* modifier? ws* flagset ws* , ws* ignoreset ws*`, written from its pieces. -/
def clauseTextIgnore (w1 m w2 fs w3 w4 ig w5 : List Char) : List Char :=
  w1 ++ m ++ w2 ++ fs ++ w3 ++ [','] ++ w4 ++ ig ++ w5

/-- The text is of the shape of the anchored grammar:
`ws* modifier? ws* flagset (ws* ',' ws* ignoreset)? ws*`, with `modifier` one
of `!`, `+`, `*` and `flagset`, `ignoreset` non-empty runs over `SAPRFU120`. -/
def IsClause (text : List Char) : Prop :=
  ∃ w1 m w2 fs w3 : List Char,
    (∀ c ∈ w1, isSpace c = true) ∧ isModifierSlot m = true ∧
    (∀ c ∈ w2, isSpace c = true) ∧ fs ≠ [] ∧ (∀ c ∈ fs, isFlagChar c = true) ∧
    (∀ c ∈ w3, isSpace c = true) ∧
    (text = clauseText w1 m w2 fs w3 ∨
     ∃ w4 ig w5 : List Char,
       (∀ c ∈ w4, isSpace c = true) ∧ ig ≠ [] ∧ (∀ c ∈ ig, isFlagChar c = true) ∧
       (∀ c ∈ w5, isSpace c = true) ∧ text = clauseTextIgnore w1 m w2 fs w3 w4 ig w5)

/-! ## The `default:` branch of the flagset loop -/

/-- Whether the flagset loop of `DetectFlagsParse` (lines 197-246), run on a
text, reaches its `default:` branch (`found = 0`): the same case analysis as
`scanFlags`, which goes on after a letter, stops at the `return de` of
`case '0'` and at the end of the string, and answers `true` at the first
character that no `case` label names. -/
def scanFlagsTakesDefault : List Char → Bool
  | [] => false
  | c :: rest =>
    if c = 'S' ∨ c = 's' then scanFlagsTakesDefault rest
    else if c = 'A' ∨ c = 'a' then scanFlagsTakesDefault rest
    else if c = 'F' ∨ c = 'f' then scanFlagsTakesDefault rest
    else if c = 'R' ∨ c = 'r' then scanFlagsTakesDefault rest
    else if c = 'P' ∨ c = 'p' then scanFlagsTakesDefault rest
    else if c = 'U' ∨ c = 'u' then scanFlagsTakesDefault rest
    else if c = '1' then scanFlagsTakesDefault rest
    else if c = '2' then scanFlagsTakesDefault rest
    else if c = '0' then false
    else true

/-! ## Bit-level lemmas -/

theorem u8_of_lt {n : Nat} (h : n < 256) : u8 n = n := Nat.mod_eq_of_lt h

theorem add_eq_or_of_disjoint {a b : Nat} (ha : a < 256) (hb : b < 256) (h : a &&& b = 0) :
    a + b = a ||| b := by
  have hd : BitVec.ofNat 8 a &&& BitVec.ofNat 8 b = 0#8 := by
    apply BitVec.eq_of_toNat_eq
    simp [BitVec.toNat_and, BitVec.toNat_ofNat, Nat.mod_eq_of_lt ha, Nat.mod_eq_of_lt hb, h]
  have h1 := BitVec.toNat_add_of_and_eq_zero hd
  have h2 := congrArg BitVec.toNat (BitVec.add_eq_or_of_and_eq_zero _ _ hd)
  rw [h1] at h2
  simpa [BitVec.toNat_or, BitVec.toNat_ofNat, Nat.mod_eq_of_lt ha, Nat.mod_eq_of_lt hb] using h2

theorem sub_and_eq_xor (x m : Nat) (hx : x < 256) : x - (x &&& m) = x ^^^ (x &&& m) := by
  have hle : x &&& m ≤ x := Nat.and_le_left
  have hlt : x &&& m < 256 := lt_of_le_of_lt hle hx
  have hxl : x ^^^ (x &&& m) < 256 := Nat.xor_lt_two_pow (n := 8) hx hlt
  have hdis : (x &&& m) &&& (x ^^^ (x &&& m)) = 0 := by
    apply Nat.eq_of_testBit_eq; intro i
    simp only [Nat.testBit_and, Nat.testBit_xor, Nat.zero_testBit]
    cases x.testBit i <;> cases m.testBit i <;> rfl
  have hor : (x &&& m) ||| (x ^^^ (x &&& m)) = x := by
    apply Nat.eq_of_testBit_eq; intro i
    simp only [Nat.testBit_and, Nat.testBit_xor, Nat.testBit_or]
    cases x.testBit i <;> cases m.testBit i <;> rfl
  have := add_eq_or_of_disjoint hlt hxl hdis
  omega

theorem testBit_compl8 (x i : Nat) (hx : x < 256) :
    (255 - x).testBit i = (decide (i < 8) && !x.testBit i) := by
  have := Nat.testBit_two_pow_sub_succ (n := 8) (x := x) (by simpa using hx) i
  simpa using this

theorem relevant_and_flags (obs req ign : Nat) :
    (obs &&& (req &&& ign)) &&& req = obs &&& (req &&& ign) := by
  apply Nat.eq_of_testBit_eq; intro i
  simp only [Nat.testBit_and]
  cases obs.testBit i <;> cases req.testBit i <;> cases ign.testBit i <;> rfl

theorem ne_zero_iff_exists_testBit (x : Nat) : x ≠ 0 ↔ ∃ i, x.testBit i = true := by
  constructor
  · exact Nat.ne_zero_implies_bit_true
  · rintro ⟨i, hi⟩ h0
    rw [h0, Nat.zero_testBit] at hi
    exact Bool.false_ne_true hi

theorem and_eq_right_iff_testBit (a b : Nat) :
    a &&& b = b ↔ ∀ i, b.testBit i = true → a.testBit i = true := by
  constructor
  · intro h i hb
    have := congrArg (fun n => n.testBit i) h
    simp only [Nat.testBit_and, hb, Bool.and_true] at this
    exact this
  · intro h
    apply Nat.eq_of_testBit_eq; intro i
    have := h i
    simp only [Nat.testBit_and]
    revert this
    cases a.testBit i <;> cases b.testBit i <;> simp

theorem relevant_eq_flags_iff (obs req ign : Nat) :
    obs &&& req &&& ign = req ↔ (obs &&& req = req ∧ ign &&& req = req) := by
  rw [and_eq_right_iff_testBit, and_eq_right_iff_testBit]
  constructor
  · intro h
    have hb : ∀ i, req.testBit i = true → obs.testBit i = true ∧ ign.testBit i = true := by
      intro i hr
      have := congrArg (fun n => n.testBit i) h
      simp only [Nat.testBit_and, hr, Bool.and_true] at this
      revert this
      cases obs.testBit i <;> cases ign.testBit i <;> simp
    exact ⟨fun i hr => (hb i hr).1, fun i hr => (hb i hr).2⟩
  · rintro ⟨h1, h2⟩
    apply Nat.eq_of_testBit_eq; intro i
    have a := h1 i
    have b := h2 i
    simp only [Nat.testBit_and]
    revert a b
    cases obs.testBit i <;> cases req.testBit i <;> cases ign.testBit i <;> simp

/-! ## The unit tests give their registered results -/

/-- The eleven unit tests of the source, run on the embedding, return the
results they are registered with in `FlagsRegisterTests`. -/
theorem unit_tests_give_registered_results :
    FlagsTestParse01 = 1 ∧ FlagsTestParse02 = 0 ∧ FlagsTestParse03 = 1 ∧
    FlagsTestParse04 = 0 ∧ FlagsTestParse05 = 0 ∧ FlagsTestParse06 = 1 ∧
    FlagsTestParse07 = 0 ∧ FlagsTestParse08 = 1 ∧ FlagsTestParse09 = 1 ∧
    FlagsTestParse10 = 1 ∧ FlagsTestParse11 = 0 := by
  decide

/-! ## `DetectFlagsMatch`, evaluated -/

/-- The value of `DetectFlagsMatch` on an IPv4 packet with a TCP header, with
the `uint8_t` stores and the integer promotion of the Plus branch resolved. -/
theorem DetectFlagsMatch_eq (p : Packet) (de : DetectFlagsData) (obs : Nat)
    (hip : PKT_IS_IPV4 p = true) (htcp : p.tcph = some ⟨obs⟩) (ho : obs < 256) :
    DetectFlagsMatch p (some de) =
      if de.modifier = MODIFIER_ANY then
        (if obs &&& de.flags &&& de.ignored_flags ≠ 0 then 1 else 0)
      else if de.modifier = MODIFIER_PLUS then
        (if obs &&& de.flags &&& de.ignored_flags = de.flags ∧
            (obs - (obs &&& de.flags &&& de.ignored_flags)) + de.ignored_flags ≠ 0xff
         then 1 else 0)
      else if de.modifier = MODIFIER_NOT then
        (if obs &&& de.flags &&& de.ignored_flags ≠ de.flags then 1 else 0)
      else
        (if obs &&& de.flags &&& de.ignored_flags = de.flags then 1 else 0) := by
  have hle : obs &&& (de.flags &&& de.ignored_flags) ≤ obs := Nat.and_le_left
  have hlt : obs &&& (de.flags &&& de.ignored_flags) < 256 := lt_of_le_of_lt hle ho
  have hint : ((obs : Int) - ((obs &&& (de.flags &&& de.ignored_flags) : Nat) : Int)
        + (de.ignored_flags : Int) ≠ 0xff) ↔
      ((obs - (obs &&& (de.flags &&& de.ignored_flags))) + de.ignored_flags ≠ 0xff) := by
    omega
  unfold DetectFlagsMatch
  simp only [hip, htcp, u8_of_lt ho, u8_of_lt hlt, relevant_and_flags, hint,
    Bool.not_true, Bool.false_eq_true, if_false, Nat.pos_iff_ne_zero]
  simp only [Nat.and_assoc]

/-! ## The modifiers None, Any and Not -/

/-- C1: under the modifier None (no prefix, `modifier = 0`), `DetectFlagsMatch`
on an IPv4 packet with a TCP header returns 1 exactly when
`(observed & required_flags & ignored_flags) == required_flags`, and 0
otherwise. -/
theorem c1_none_returns_one_iff_relevant_eq_required
    (p : Packet) (de : DetectFlagsData) (obs : Nat)
    (hip : PKT_IS_IPV4 p = true) (htcp : p.tcph = some ⟨obs⟩) (ho : obs < 256)
    (hmod : de.modifier = 0) :
    DetectFlagsMatch p (some de) =
      if obs &&& de.flags &&& de.ignored_flags = de.flags then 1 else 0 := by
  rw [DetectFlagsMatch_eq p de obs hip htcp ho]
  simp [hmod, MODIFIER_ANY, MODIFIER_PLUS, MODIFIER_NOT]

/-- Witness of C1 on the descriptor of `"AP"` and the flag byte
ACK|PSH|SYN|RST (the input of `FlagsTestParse03`). -/
theorem c1_none_returns_one_iff_relevant_eq_required_witness :
    DetectFlagsParse "AP".toList = some ⟨TH_ACK ||| TH_PUSH, 0, 0xff⟩ ∧
    DetectFlagsMatch (tcpPacket (TH_ACK ||| TH_PUSH ||| TH_SYN ||| TH_RST))
        (some ⟨TH_ACK ||| TH_PUSH, 0, 0xff⟩) =
      (if (TH_ACK ||| TH_PUSH ||| TH_SYN ||| TH_RST) &&& (TH_ACK ||| TH_PUSH) &&& 0xff
          = TH_ACK ||| TH_PUSH then 1 else 0) ∧
    DetectFlagsMatch (tcpPacket (TH_ACK ||| TH_PUSH ||| TH_SYN ||| TH_RST))
        (some ⟨TH_ACK ||| TH_PUSH, 0, 0xff⟩) = 1 :=
  ⟨by decide,
   c1_none_returns_one_iff_relevant_eq_required
     (tcpPacket (TH_ACK ||| TH_PUSH ||| TH_SYN ||| TH_RST)) ⟨TH_ACK ||| TH_PUSH, 0, 0xff⟩
     (TH_ACK ||| TH_PUSH ||| TH_SYN ||| TH_RST) rfl rfl (by decide) rfl,
   by decide⟩

/-- C2: under the modifier Any (`*`), `DetectFlagsMatch` on an IPv4 packet with
a TCP header returns 1 exactly when `observed & required_flags & ignored_flags`
is not 0, that is when some bit that is required and not ignored is set in the
observed byte; it returns 0 otherwise. -/
theorem c2_any_returns_one_iff_some_relevant_bit
    (p : Packet) (de : DetectFlagsData) (obs : Nat)
    (hip : PKT_IS_IPV4 p = true) (htcp : p.tcph = some ⟨obs⟩) (ho : obs < 256)
    (hmod : de.modifier = MODIFIER_ANY) :
    DetectFlagsMatch p (some de) =
        (if obs &&& de.flags &&& de.ignored_flags ≠ 0 then 1 else 0) ∧
    (DetectFlagsMatch p (some de) = 1 ↔
      ∃ i, de.flags.testBit i = true ∧ de.ignored_flags.testBit i = true ∧
        obs.testBit i = true) := by
  have h : DetectFlagsMatch p (some de) =
      (if obs &&& de.flags &&& de.ignored_flags ≠ 0 then 1 else 0) := by
    rw [DetectFlagsMatch_eq p de obs hip htcp ho]
    simp [hmod]
  refine ⟨h, ?_⟩
  rw [h]
  have hb := ne_zero_iff_exists_testBit (obs &&& de.flags &&& de.ignored_flags)
  simp only [Nat.testBit_and, Bool.and_eq_true] at hb
  constructor
  · intro h1
    have hne : obs &&& de.flags &&& de.ignored_flags ≠ 0 := by
      intro h0
      rw [if_neg (not_not.mpr h0)] at h1
      exact absurd h1 (by decide)
    obtain ⟨i, ⟨ho1, hr⟩, hg⟩ := hb.mp hne
    exact ⟨i, hr, hg, ho1⟩
  · rintro ⟨i, hr, hg, ho1⟩
    rw [if_pos (hb.mpr ⟨i, ⟨ho1, hr⟩, hg⟩)]

/-- Witness of C2 on the descriptor of `"*SA"` and the flag byte SYN|RST (the
input of `FlagsTestParse08`). -/
theorem c2_any_returns_one_iff_some_relevant_bit_witness :
    DetectFlagsParse "*SA".toList = some ⟨TH_SYN ||| TH_ACK, MODIFIER_ANY, 0xff⟩ ∧
    (DetectFlagsMatch (tcpPacket (TH_SYN ||| TH_RST))
        (some ⟨TH_SYN ||| TH_ACK, MODIFIER_ANY, 0xff⟩) =
        (if (TH_SYN ||| TH_RST) &&& (TH_SYN ||| TH_ACK) &&& 0xff ≠ 0 then 1 else 0) ∧
     (DetectFlagsMatch (tcpPacket (TH_SYN ||| TH_RST))
        (some ⟨TH_SYN ||| TH_ACK, MODIFIER_ANY, 0xff⟩) = 1 ↔
      ∃ i, (TH_SYN ||| TH_ACK).testBit i = true ∧ (0xff : Nat).testBit i = true ∧
        (TH_SYN ||| TH_RST).testBit i = true)) :=
  ⟨by decide,
   c2_any_returns_one_iff_some_relevant_bit (tcpPacket (TH_SYN ||| TH_RST))
     ⟨TH_SYN ||| TH_ACK, MODIFIER_ANY, 0xff⟩ (TH_SYN ||| TH_RST) rfl rfl (by decide) rfl⟩

/-- C3: Not is the negation of the default case. For all `required_flags`,
`ignored_flags` and every IPv4 packet with a TCP header, `DetectFlagsMatch`
with the modifier Not returns 1 exactly when `DetectFlagsMatch` with the
modifier None, on the same masks and packet, returns 0. -/
theorem c3_not_is_negation_of_none
    (p : Packet) (required ignored obs : Nat)
    (hip : PKT_IS_IPV4 p = true) (htcp : p.tcph = some ⟨obs⟩) :
    DetectFlagsMatch p (some ⟨required, MODIFIER_NOT, ignored⟩) = 1 ↔
      DetectFlagsMatch p (some ⟨required, 0, ignored⟩) = 0 := by
  unfold DetectFlagsMatch
  simp only [hip, htcp, MODIFIER_ANY, MODIFIER_PLUS, MODIFIER_NOT]
  by_cases h : u8 (u8 obs &&& (required &&& ignored)) &&& required = required <;> simp [h]

/-- Witness of C3 on the masks of `"!AP"` and the flag byte SYN|RST (the input
of `FlagsTestParse10`). -/
theorem c3_not_is_negation_of_none_witness :
    DetectFlagsParse "!AP".toList = some ⟨TH_ACK ||| TH_PUSH, MODIFIER_NOT, 0xff⟩ ∧
    DetectFlagsParse "!PA".toList = some ⟨TH_ACK ||| TH_PUSH, MODIFIER_NOT, 0xff⟩ ∧
    (DetectFlagsMatch (tcpPacket (TH_SYN ||| TH_RST))
        (some ⟨TH_ACK ||| TH_PUSH, MODIFIER_NOT, 0xff⟩) = 1 ↔
      DetectFlagsMatch (tcpPacket (TH_SYN ||| TH_RST))
        (some ⟨TH_ACK ||| TH_PUSH, 0, 0xff⟩) = 0) ∧
    DetectFlagsMatch (tcpPacket (TH_SYN ||| TH_RST))
        (some ⟨TH_ACK ||| TH_PUSH, MODIFIER_NOT, 0xff⟩) = 1 :=
  ⟨by decide, by decide,
   c3_not_is_negation_of_none (tcpPacket (TH_SYN ||| TH_RST)) (TH_ACK ||| TH_PUSH) 0xff
     (TH_SYN ||| TH_RST) rfl rfl,
   by decide⟩


/-! ## The modifier Plus -/

/-- C4 (as the code has it): under the modifier Plus (`+`), with
`relevant = observed & required_flags & ignored_flags`, `DetectFlagsMatch` on an
IPv4 packet with a TCP header returns 1 exactly when both
`relevant == required_flags` and `(observed - relevant) + ignored_flags` is not
`0xFF`, and 0 otherwise. The summand is the stored mask `ignored_flags` itself
(a 0 bit means ignored), not its complement; the arithmetic is that of C `int`. -/
theorem c4_plus_adds_stored_ignored_mask
    (p : Packet) (de : DetectFlagsData) (obs : Nat)
    (hip : PKT_IS_IPV4 p = true) (htcp : p.tcph = some ⟨obs⟩) (ho : obs < 256)
    (hmod : de.modifier = MODIFIER_PLUS) :
    DetectFlagsMatch p (some de) =
      if obs &&& de.flags &&& de.ignored_flags = de.flags ∧
          ((obs : Int) - ((obs &&& de.flags &&& de.ignored_flags : Nat) : Int))
            + (de.ignored_flags : Int) ≠ 0xff
      then 1 else 0 := by
  have hle : obs &&& de.flags &&& de.ignored_flags ≤ obs :=
    le_trans Nat.and_le_left Nat.and_le_left
  have hint : (((obs : Int) - ((obs &&& de.flags &&& de.ignored_flags : Nat) : Int))
        + (de.ignored_flags : Int) ≠ 0xff) ↔
      ((obs - (obs &&& de.flags &&& de.ignored_flags)) + de.ignored_flags ≠ 0xff) := by
    omega
  rw [DetectFlagsMatch_eq p de obs hip htcp ho]
  simp only [hint]
  simp [hmod, MODIFIER_ANY, MODIFIER_PLUS]

/-- Witness of C4 (as the code has it) on the descriptor of `"+AP"` and the
flag byte ACK|PSH: the remainder is `0 + 0xFF`, so the result is 0. -/
theorem c4_plus_adds_stored_ignored_mask_witness :
    DetectFlagsParse "+AP".toList = some ⟨TH_ACK ||| TH_PUSH, MODIFIER_PLUS, 0xff⟩ ∧
    DetectFlagsMatch (tcpPacket (TH_ACK ||| TH_PUSH))
        (some ⟨TH_ACK ||| TH_PUSH, MODIFIER_PLUS, 0xff⟩) =
      (if (TH_ACK ||| TH_PUSH) &&& (TH_ACK ||| TH_PUSH) &&& 0xff = TH_ACK ||| TH_PUSH ∧
          (((TH_ACK ||| TH_PUSH : Nat) : Int) -
            (((TH_ACK ||| TH_PUSH) &&& (TH_ACK ||| TH_PUSH) &&& 0xff : Nat) : Int))
            + ((0xff : Nat) : Int) ≠ 0xff
       then 1 else 0) :=
  ⟨by decide,
   c4_plus_adds_stored_ignored_mask (tcpPacket (TH_ACK ||| TH_PUSH))
     ⟨TH_ACK ||| TH_PUSH, MODIFIER_PLUS, 0xff⟩ (TH_ACK ||| TH_PUSH) rfl rfl (by decide) rfl⟩

/-- C4 as claimed fails: for the descriptor of `"+AP"` (nothing ignored,
`ignored_flags = 0xFF`) and the flag byte ACK|PSH the rule with the
complemented mask holds (`0 + 0x00` is not `0xFF`), yet `DetectFlagsMatch`
returns 0. -/
theorem c4_plus_complemented_mask_counterexample :
    DetectFlagsParse "+AP".toList = some ⟨TH_ACK ||| TH_PUSH, MODIFIER_PLUS, 0xff⟩ ∧
    specPlusRule (TH_ACK ||| TH_PUSH) 0xff (TH_ACK ||| TH_PUSH) = true ∧
    DetectFlagsMatch (tcpPacket (TH_ACK ||| TH_PUSH))
      (some ⟨TH_ACK ||| TH_PUSH, MODIFIER_PLUS, 0xff⟩) = 0 ∧
    ¬ (DetectFlagsMatch (tcpPacket (TH_ACK ||| TH_PUSH))
        (some ⟨TH_ACK ||| TH_PUSH, MODIFIER_PLUS, 0xff⟩) = 1 ↔
      specPlusRule (TH_ACK ||| TH_PUSH) 0xff (TH_ACK ||| TH_PUSH) = true) := by
  decide

/-! ## Packets without a TCP header -/

/-- C7: `DetectFlagsMatch` returns 0 when the descriptor pointer is absent,
when the packet is not IPv4 and when the packet has no TCP header, whatever
the descriptor and its modifier. -/
theorem c7_no_tcp_header_returns_zero (p : Packet) (ctx : Option DetectFlagsData)
    (h : ctx = none ∨ PKT_IS_IPV4 p = false ∨ p.tcph = none) :
    DetectFlagsMatch p ctx = 0 := by
  unfold DetectFlagsMatch
  cases ctx with
  | none => rfl
  | some de =>
    rcases h with h | h | h
    · exact absurd h (by simp)
    · simp [h]
    · simp [h]

/-- Witness of C7: a Not descriptor (`"!AP"`) on an IPv4 packet without a TCP
header. -/
theorem c7_no_tcp_header_returns_zero_witness :
    DetectFlagsMatch ⟨some ⟨⟩, none⟩ (some ⟨TH_ACK ||| TH_PUSH, MODIFIER_NOT, 0xff⟩) = 0 :=
  c7_no_tcp_header_returns_zero ⟨some ⟨⟩, none⟩
    (some ⟨TH_ACK ||| TH_PUSH, MODIFIER_NOT, 0xff⟩) (Or.inr (Or.inr rfl))

/-! ## Which observed bits are read -/

/-- C8 (as the code has it): under the modifiers None, Not and Any, two
observed bytes of IPv4 TCP packets that agree on the bits of
`required_flags & ignored_flags` get the same result from `DetectFlagsMatch`.
The modifier Plus is left out: its remainder test reads the other bits. -/
theorem c8_non_interference_except_plus
    (p1 p2 : Packet) (de : DetectFlagsData) (o1 o2 : Nat)
    (hip1 : PKT_IS_IPV4 p1 = true) (htcp1 : p1.tcph = some ⟨o1⟩) (ho1 : o1 < 256)
    (hip2 : PKT_IS_IPV4 p2 = true) (htcp2 : p2.tcph = some ⟨o2⟩) (ho2 : o2 < 256)
    (hmod : de.modifier ≠ MODIFIER_PLUS)
    (hagree : o1 &&& (de.flags &&& de.ignored_flags) = o2 &&& (de.flags &&& de.ignored_flags)) :
    DetectFlagsMatch p1 (some de) = DetectFlagsMatch p2 (some de) := by
  rw [DetectFlagsMatch_eq p1 de o1 hip1 htcp1 ho1, DetectFlagsMatch_eq p2 de o2 hip2 htcp2 ho2]
  simp only [Nat.and_assoc, hagree, if_neg hmod]

/-- Witness of C8 (as the code has it): the descriptor of `"AP"` on ACK|PSH and
on ACK|PSH|SYN. -/
theorem c8_non_interference_except_plus_witness :
    DetectFlagsMatch (tcpPacket (TH_ACK ||| TH_PUSH)) (some ⟨TH_ACK ||| TH_PUSH, 0, 0xff⟩) =
      DetectFlagsMatch (tcpPacket (TH_ACK ||| TH_PUSH ||| TH_SYN))
        (some ⟨TH_ACK ||| TH_PUSH, 0, 0xff⟩) :=
  c8_non_interference_except_plus (tcpPacket (TH_ACK ||| TH_PUSH))
    (tcpPacket (TH_ACK ||| TH_PUSH ||| TH_SYN)) ⟨TH_ACK ||| TH_PUSH, 0, 0xff⟩
    (TH_ACK ||| TH_PUSH) (TH_ACK ||| TH_PUSH ||| TH_SYN)
    rfl rfl (by decide) rfl rfl (by decide) (by decide) (by decide)

/-- C8 as claimed fails for Plus: with the descriptor of `"+AP"`, the flag
bytes ACK|PSH and ACK|PSH|SYN agree on the bits of
`required_flags & ignored_flags`, and `DetectFlagsMatch` returns 0 on the first
and 1 on the second. -/
theorem c8_plus_reads_other_bits_counterexample :
    DetectFlagsParse "+AP".toList = some ⟨TH_ACK ||| TH_PUSH, MODIFIER_PLUS, 0xff⟩ ∧
    (TH_ACK ||| TH_PUSH) &&& ((TH_ACK ||| TH_PUSH) &&& 0xff) =
      (TH_ACK ||| TH_PUSH ||| TH_SYN) &&& ((TH_ACK ||| TH_PUSH) &&& 0xff) ∧
    DetectFlagsMatch (tcpPacket (TH_ACK ||| TH_PUSH))
      (some ⟨TH_ACK ||| TH_PUSH, MODIFIER_PLUS, 0xff⟩) = 0 ∧
    DetectFlagsMatch (tcpPacket (TH_ACK ||| TH_PUSH ||| TH_SYN))
      (some ⟨TH_ACK ||| TH_PUSH, MODIFIER_PLUS, 0xff⟩) = 1 := by
  decide

/-! ## Required bits that are also ignored -/

/-- C9 (as the code has it): under the modifier None, `DetectFlagsMatch` on an
IPv4 packet with a TCP header returns 1 exactly when every required bit is set
in the observed byte and no required bit is ignored; it returns 0 otherwise. In
particular it returns 0 on every observed byte when some required bit is also
ignored. -/
theorem c9_none_needs_required_bits_unignored
    (p : Packet) (de : DetectFlagsData) (obs : Nat)
    (hip : PKT_IS_IPV4 p = true) (htcp : p.tcph = some ⟨obs⟩) (ho : obs < 256)
    (hmod : de.modifier = 0) :
    DetectFlagsMatch p (some de) =
        (if obs &&& de.flags = de.flags ∧ de.ignored_flags &&& de.flags = de.flags
         then 1 else 0) ∧
    (de.ignored_flags &&& de.flags ≠ de.flags → DetectFlagsMatch p (some de) = 0) := by
  have h : DetectFlagsMatch p (some de) =
      (if obs &&& de.flags = de.flags ∧ de.ignored_flags &&& de.flags = de.flags
       then 1 else 0) := by
    rw [DetectFlagsMatch_eq p de obs hip htcp ho]
    simp [hmod, MODIFIER_ANY, MODIFIER_PLUS, MODIFIER_NOT, relevant_eq_flags_iff]
  refine ⟨h, fun hne => ?_⟩
  rw [h, if_neg (fun hc => hne hc.2)]

/-- Witness of C9 (as the code has it) on the descriptor of `"AP,A"` and the
flag byte ACK|PSH. -/
theorem c9_none_needs_required_bits_unignored_witness :
    DetectFlagsMatch (tcpPacket (TH_ACK ||| TH_PUSH)) (some ⟨TH_ACK ||| TH_PUSH, 0, 0xef⟩) =
        (if (TH_ACK ||| TH_PUSH) &&& (TH_ACK ||| TH_PUSH) = TH_ACK ||| TH_PUSH ∧
            0xef &&& (TH_ACK ||| TH_PUSH) = TH_ACK ||| TH_PUSH
         then 1 else 0) ∧
    (0xef &&& (TH_ACK ||| TH_PUSH) ≠ TH_ACK ||| TH_PUSH →
      DetectFlagsMatch (tcpPacket (TH_ACK ||| TH_PUSH))
        (some ⟨TH_ACK ||| TH_PUSH, 0, 0xef⟩) = 0) :=
  c9_none_needs_required_bits_unignored (tcpPacket (TH_ACK ||| TH_PUSH))
    ⟨TH_ACK ||| TH_PUSH, 0, 0xef⟩ (TH_ACK ||| TH_PUSH) rfl rfl (by decide) rfl

/-- C9 as claimed fails: `"AP,A"` compiles to required ACK|PSH with ACK
ignored; on the flag byte ACK|PSH the required bits that are not ignored are
all set (`observed & required & ignored == required & ignored`), yet
`DetectFlagsMatch` returns 0. -/
theorem c9_required_and_ignored_counterexample :
    DetectFlagsParse "AP,A".toList = some ⟨TH_ACK ||| TH_PUSH, 0, 0xef⟩ ∧
    (TH_ACK ||| TH_PUSH) &&& (TH_ACK ||| TH_PUSH) &&& 0xef = (TH_ACK ||| TH_PUSH) &&& 0xef ∧
    DetectFlagsMatch (tcpPacket (TH_ACK ||| TH_PUSH))
      (some ⟨TH_ACK ||| TH_PUSH, 0, 0xef⟩) = 0 := by
  decide


/-! ## Descriptors produced by `DetectFlagsParse` are bytes -/

theorem u8_lt (n : Nat) : u8 n < 256 := Nat.mod_lt _ (by decide)

theorem parseModifier_lt (s : List Char) :
    ∀ m, m < 256 → parseModifier s m < 256 := by
  induction s with
  | nil => intro m hm; simpa [parseModifier] using hm
  | cons c rest ih =>
    intro m hm
    unfold parseModifier
    split_ifs
    · exact ih _ (by decide)
    · exact ih _ (by decide)
    · exact ih _ (by decide)
    · exact ih _ hm

theorem scanFlags_lt (s : List Char) :
    ∀ flags found f n, flags < 256 → scanFlags s flags found = FlagScan.finished f n →
      f < 256 := by
  induction s with
  | nil =>
    intro flags found f n hf h
    simp only [scanFlags, FlagScan.finished.injEq] at h
    omega
  | cons c rest ih =>
    intro flags found f n hf h
    unfold scanFlags at h
    split_ifs at h
    all_goals first
      | exact ih _ _ f n (u8_lt _) h
      | exact ih _ _ f n hf h

theorem scanIgnored_lt (s : List Char) :
    ∀ ign ignore, ign < 256 → (scanIgnored s ign ignore).1 < 256 := by
  induction s with
  | nil => intro ign ignore h; simpa [scanIgnored] using h
  | cons c rest ih =>
    intro ign ignore h
    unfold scanIgnored
    split_ifs
    all_goals first
      | exact ih _ _ (u8_lt _)
      | exact ih _ _ h

/-- Every descriptor that `DetectFlagsParse` returns has three byte fields. -/
theorem DetectFlagsParse_isBytes (rawstr : List Char) (de : DetectFlagsData)
    (h : DetectFlagsParse rawstr = some de) : de.IsBytes := by
  unfold DetectFlagsParse at h
  split at h
  · exact absurd h (by simp)
  · rename_i cap hcap
    have hm : parseModifier (cap.group1.getD []) 0 < 256 := parseModifier_lt _ 0 (by decide)
    simp only at h
    split at h
    · simp only [Option.some.injEq] at h
      subst h
      exact ⟨by show (0 : Nat) < 256; decide, hm, by show (0xff : Nat) < 256; decide⟩
    · rename_i flags found hscan
      have hf : flags < 256 := scanFlags_lt _ 0 0 flags found (by decide) hscan
      split_ifs at h
      split at h
      · simp only [Option.some.injEq] at h
        subst h
        exact ⟨hf, hm, by show (0xff : Nat) < 256; decide⟩
      · rename_i ig hig
        split_ifs at h
        simp only [Option.some.injEq] at h
        subst h
        exact ⟨hf, hm, scanIgnored_lt _ _ _ (by decide)⟩


/-! ## The remainder test of Plus, bit by bit -/

theorem testBit_eq_false_of_lt_256 {x i : Nat} (hx : x < 256) (hi : 8 ≤ i) :
    x.testBit i = false := by
  apply Nat.testBit_lt_two_pow
  calc x < 2 ^ 8 := by simpa using hx
    _ ≤ 2 ^ i := Nat.pow_le_pow_right (by decide) hi

/-- When every required bit is set in `obs`, the remainder `obs - req` holds
exactly the observed bits that are not required. -/
theorem sub_eq_xor_of_subset (obs req : Nat) (ho : obs < 256) (h : obs &&& req = req) :
    obs - req = obs ^^^ req := by
  have := sub_and_eq_xor obs req ho
  rwa [h] at this

/-- With all required bits set, the remainder test `(obs - req) + ign == 0xFF`
of the Plus branch says that the observed bits outside the required ones are
exactly the ignored bits. -/
theorem plus_remainder_eq_iff (obs req ign : Nat) (ho : obs < 256) (hg : ign < 256)
    (h : obs &&& req = req) :
    (obs - req) + ign = 0xff ↔
      ∀ i, (obs.testBit i ^^ req.testBit i) = (decide (i < 8) && !ign.testBit i) := by
  rw [sub_eq_xor_of_subset obs req ho h]
  have hx : obs ^^^ req < 256 :=
    Nat.xor_lt_two_pow (n := 8) ho (lt_of_le_of_lt (h ▸ Nat.and_le_left) ho)
  constructor
  · intro hsum i
    have he : obs ^^^ req = 255 - ign := by omega
    have := congrArg (fun n => n.testBit i) he
    simpa only [Nat.testBit_xor, testBit_compl8 ign i hg] using this
  · intro hbits
    have he : obs ^^^ req = 255 - ign := by
      apply Nat.eq_of_testBit_eq
      intro i
      rw [Nat.testBit_xor, testBit_compl8 ign i hg]
      exact hbits i
    omega

/-- The Plus branch on an observed byte in which all required bits are set and
every additional set bit is ignored: the result is 0 exactly when some required
bit is ignored or every ignored bit is set. -/
theorem plus_returns_zero_iff
    (p : Packet) (de : DetectFlagsData) (obs : Nat)
    (hg : de.ignored_flags < 256)
    (hip : PKT_IS_IPV4 p = true) (htcp : p.tcph = some ⟨obs⟩) (ho : obs < 256)
    (hmod : de.modifier = MODIFIER_PLUS)
    (hset : ∀ i, de.flags.testBit i = true → obs.testBit i = true)
    (hextra : ∀ i, obs.testBit i = true → de.flags.testBit i = false →
      de.ignored_flags.testBit i = false) :
    DetectFlagsMatch p (some de) = 0 ↔
      ((∃ i, de.flags.testBit i = true ∧ de.ignored_flags.testBit i = false) ∨
       (∀ i, i < 8 → de.ignored_flags.testBit i = false → obs.testBit i = true)) := by
  have hsub : obs &&& de.flags = de.flags := (and_eq_right_iff_testBit _ _).mpr hset
  rw [DetectFlagsMatch_eq p de obs hip htcp ho]
  have hplus : MODIFIER_PLUS ≠ MODIFIER_ANY := by decide
  rw [hmod, if_neg hplus, if_pos rfl]
  by_cases hign : de.ignored_flags &&& de.flags = de.flags
  · -- no required bit is ignored: the remainder test decides
    have hreq : ∀ i, de.flags.testBit i = true → de.ignored_flags.testBit i = true :=
      (and_eq_right_iff_testBit _ _).mp hign
    have hrel : obs &&& de.flags &&& de.ignored_flags = de.flags :=
      (relevant_eq_flags_iff _ _ _).mpr ⟨hsub, hign⟩
    rw [hrel]
    have hrem := plus_remainder_eq_iff obs de.flags de.ignored_flags ho hg hsub
    constructor
    · intro h0
      right
      have hsum : obs - de.flags + de.ignored_flags = 0xff := by
        by_contra hne
        simp [hne] at h0
      intro i hi hgi
      have hb := hrem.mp hsum i
      have hs := hset i
      simp only [hi, hgi, decide_True, Bool.not_false, Bool.and_true] at hb
      revert hb hs
      cases obs.testBit i <;> cases de.flags.testBit i <;> simp
    · intro hr
      have hall : ∀ i, i < 8 → de.ignored_flags.testBit i = false → obs.testBit i = true := by
        rcases hr with ⟨i, hri, hgi⟩ | hall
        · rw [hreq i hri] at hgi
          exact absurd hgi (by decide)
        · exact hall
      have hsum : obs - de.flags + de.ignored_flags = 0xff := by
        apply hrem.mpr
        intro i
        by_cases hi : i < 8
        · have h1 := hall i hi
          have h2 := hset i
          have h3 := hextra i
          have h4 := hreq i
          simp only [hi, decide_True, Bool.true_and]
          revert h1 h2 h3 h4
          cases obs.testBit i <;> cases de.flags.testBit i <;>
            cases de.ignored_flags.testBit i <;> simp
        · have h8 : 8 ≤ i := by omega
          have hoi := testBit_eq_false_of_lt_256 ho h8
          have h2 := hset i
          simp only [hi, decide_False, Bool.false_and, hoi]
          revert h2
          rw [hoi]
          cases de.flags.testBit i <;> simp
      simp [hsum]
  · -- some required bit is ignored: no match, whatever the remainder
    have hex : ∃ i, de.flags.testBit i = true ∧ de.ignored_flags.testBit i = false := by
      by_contra hno
      apply hign
      apply (and_eq_right_iff_testBit _ _).mpr
      intro i hri
      by_contra hgi
      exact hno ⟨i, hri, by simpa using hgi⟩
    have hrel : ¬ (obs &&& de.flags &&& de.ignored_flags = de.flags) :=
      fun hc => hign ((relevant_eq_flags_iff _ _ _).mp hc).2
    rw [if_neg (fun hc => hrel hc.1)]
    exact ⟨fun _ => Or.inl hex, fun _ => rfl⟩


theorem lt_8_of_testBit {x i : Nat} (hx : x < 256) (h : x.testBit i = true) : i < 8 := by
  by_contra hi
  rw [testBit_eq_false_of_lt_256 hx (by omega)] at h
  exact Bool.false_ne_true h

/-- C5 (as the code has it): for a descriptor produced by `DetectFlagsParse`
with the modifier Plus, and an observed byte in which all required bits are
set and every additional set bit is one of the ignored bits,
`DetectFlagsMatch` returns 0 exactly when every ignored bit is set in the
observed byte (the additional set bits are all of the ignored bits) or some
required bit is itself ignored. Bits are numbered 0 to 7. -/
theorem c5_plus_rejects_only_all_ignored_extras
    (rawstr : List Char) (p : Packet) (de : DetectFlagsData) (obs : Nat)
    (hparse : DetectFlagsParse rawstr = some de)
    (hip : PKT_IS_IPV4 p = true) (htcp : p.tcph = some ⟨obs⟩) (ho : obs < 256)
    (hmod : de.modifier = MODIFIER_PLUS)
    (hset : ∀ i, i < 8 → de.flags.testBit i = true → obs.testBit i = true)
    (hextra : ∀ i, i < 8 → obs.testBit i = true → de.flags.testBit i = false →
      de.ignored_flags.testBit i = false) :
    DetectFlagsMatch p (some de) = 0 ↔
      ((∃ i, i < 8 ∧ de.flags.testBit i = true ∧ de.ignored_flags.testBit i = false) ∨
       (∀ i, i < 8 → de.ignored_flags.testBit i = false → obs.testBit i = true)) := by
  have hb := DetectFlagsParse_isBytes rawstr de hparse
  rw [plus_returns_zero_iff p de obs hb.2.2 hip htcp ho hmod
    (fun i hr => hset i (lt_8_of_testBit hb.1 hr) hr)
    (fun i hoi => hextra i (lt_8_of_testBit ho hoi) hoi)]
  constructor
  · rintro (⟨i, hr, hgi⟩ | h)
    · exact Or.inl ⟨i, lt_8_of_testBit hb.1 hr, hr, hgi⟩
    · exact Or.inr h
  · rintro (⟨i, _, hr, hgi⟩ | h)
    · exact Or.inl ⟨i, hr, hgi⟩
    · exact Or.inr h

/-- Witness of C5 (as the code has it) on `"+AP,SR"` and the flag byte
ACK|PSH|SYN|RST (the input of `FlagsTestParse05`): every ignored bit is set,
so the result is 0. -/
theorem c5_plus_rejects_only_all_ignored_extras_witness :
    DetectFlagsParse "+AP,SR".toList = some ⟨TH_ACK ||| TH_PUSH, MODIFIER_PLUS, 0xf9⟩ ∧
    (∀ i, i < 8 → (0xf9 : Nat).testBit i = false →
      (TH_ACK ||| TH_PUSH ||| TH_SYN ||| TH_RST).testBit i = true) ∧
    DetectFlagsMatch (tcpPacket (TH_ACK ||| TH_PUSH ||| TH_SYN ||| TH_RST))
      (some ⟨TH_ACK ||| TH_PUSH, MODIFIER_PLUS, 0xf9⟩) = 0 :=
  ⟨by decide, by decide,
   (c5_plus_rejects_only_all_ignored_extras "+AP,SR".toList
      (tcpPacket (TH_ACK ||| TH_PUSH ||| TH_SYN ||| TH_RST))
      ⟨TH_ACK ||| TH_PUSH, MODIFIER_PLUS, 0xf9⟩ (TH_ACK ||| TH_PUSH ||| TH_SYN ||| TH_RST)
      (by decide) rfl rfl (by decide) rfl (by decide) (by decide)).mpr
     (Or.inr (by decide))⟩

/-- C5 as claimed fails: `"+AP,SR"` compiles to Plus, required ACK|PSH, with
SYN and RST ignored. In the flag byte ACK|PSH|SYN all required bits are set
and the only additional bit, SYN, is an ignored bit; `DetectFlagsMatch`
returns 1. It also returns 1 on ACK|PSH, where there is no additional bit. -/
theorem c5_ignored_extra_still_matches_counterexample :
    DetectFlagsParse "+AP,SR".toList = some ⟨TH_ACK ||| TH_PUSH, MODIFIER_PLUS, 0xf9⟩ ∧
    (∀ i, i < 8 → (TH_ACK ||| TH_PUSH).testBit i = true →
      (TH_ACK ||| TH_PUSH ||| TH_SYN).testBit i = true) ∧
    (∀ i, i < 8 → (TH_ACK ||| TH_PUSH ||| TH_SYN).testBit i = true →
      (TH_ACK ||| TH_PUSH).testBit i = false → (0xf9 : Nat).testBit i = false) ∧
    DetectFlagsMatch (tcpPacket (TH_ACK ||| TH_PUSH ||| TH_SYN))
      (some ⟨TH_ACK ||| TH_PUSH, MODIFIER_PLUS, 0xf9⟩) = 1 ∧
    DetectFlagsMatch (tcpPacket (TH_ACK ||| TH_PUSH))
      (some ⟨TH_ACK ||| TH_PUSH, MODIFIER_PLUS, 0xf9⟩) = 1 := by
  decide

/-- C6: under the modifier Plus, when no required bit is ignored, every
required bit is set in the observed byte and some bit that is neither required
nor ignored is set as well, `DetectFlagsMatch` returns 1, whatever the ignored
bits of the observed byte are. Bits are numbered 0 to 7. -/
theorem c6_plus_matches_with_unignored_extra
    (p : Packet) (de : DetectFlagsData) (obs : Nat)
    (hb : de.IsBytes)
    (hip : PKT_IS_IPV4 p = true) (htcp : p.tcph = some ⟨obs⟩) (ho : obs < 256)
    (hmod : de.modifier = MODIFIER_PLUS)
    (hunignored : ∀ i, i < 8 → de.flags.testBit i = true →
      de.ignored_flags.testBit i = true)
    (hset : ∀ i, i < 8 → de.flags.testBit i = true → obs.testBit i = true)
    (hextra : ∃ i, i < 8 ∧ obs.testBit i = true ∧ de.flags.testBit i = false ∧
      de.ignored_flags.testBit i = true) :
    DetectFlagsMatch p (some de) = 1 := by
  have hset' : ∀ i, de.flags.testBit i = true → obs.testBit i = true :=
    fun i hr => hset i (lt_8_of_testBit hb.1 hr) hr
  have hun' : ∀ i, de.flags.testBit i = true → de.ignored_flags.testBit i = true :=
    fun i hr => hunignored i (lt_8_of_testBit hb.1 hr) hr
  have hsub : obs &&& de.flags = de.flags := (and_eq_right_iff_testBit _ _).mpr hset'
  have hign : de.ignored_flags &&& de.flags = de.flags :=
    (and_eq_right_iff_testBit _ _).mpr hun'
  have hrel : obs &&& de.flags &&& de.ignored_flags = de.flags :=
    (relevant_eq_flags_iff _ _ _).mpr ⟨hsub, hign⟩
  have hplus : MODIFIER_PLUS ≠ MODIFIER_ANY := by decide
  rw [DetectFlagsMatch_eq p de obs hip htcp ho, hmod, if_neg hplus, if_pos rfl, hrel]
  have hrem : ¬ (obs - de.flags + de.ignored_flags = 0xff) := by
    intro hsum
    obtain ⟨i, hi, hoi, hri, hgi⟩ := hextra
    have := (plus_remainder_eq_iff obs de.flags de.ignored_flags ho hb.2.2 hsub).mp hsum i
    rw [hoi, hri, hgi] at this
    simp at this
  rw [if_pos ⟨rfl, hrem⟩]

/-- Witness of C6 on the descriptor of `"+AP,UR"` and the flag byte
ACK|PSH|SYN|RST (the input of `FlagsTestParse06`): SYN (bit 1) is neither
required nor ignored. -/
theorem c6_plus_matches_with_unignored_extra_witness :
    DetectFlagsParse "+AP,UR".toList = some ⟨TH_ACK ||| TH_PUSH, MODIFIER_PLUS, 0xdb⟩ ∧
    0xff - 0xdb = TH_URG ||| TH_RST ∧
    DetectFlagsMatch (tcpPacket (TH_ACK ||| TH_PUSH ||| TH_SYN ||| TH_RST))
      (some ⟨TH_ACK ||| TH_PUSH, MODIFIER_PLUS, 0xdb⟩) = 1 :=
  ⟨by decide, by decide,
   c6_plus_matches_with_unignored_extra
     (tcpPacket (TH_ACK ||| TH_PUSH ||| TH_SYN ||| TH_RST))
     ⟨TH_ACK ||| TH_PUSH, MODIFIER_PLUS, 0xdb⟩ (TH_ACK ||| TH_PUSH ||| TH_SYN ||| TH_RST)
     (by decide) rfl rfl (by decide) rfl (by decide) (by decide)
     ⟨1, by decide, by decide, by decide, by decide⟩⟩


/-! ## `DetectFlagsParse` on a flagset without ignore clause -/

theorem isFlagLetter_cases {c : Char} (h : isFlagLetter c = true) :
    c = 'S' ∨ c = 'A' ∨ c = 'F' ∨ c = 'R' ∨ c = 'P' ∨ c = 'U' ∨ c = '1' ∨ c = '2' := by
  simpa [isFlagLetter, or_assoc] using h

theorem isFlagChar_of_isFlagLetter {c : Char} (h : isFlagLetter c = true) :
    isFlagChar c = true := by
  rcases isFlagLetter_cases h with rfl | rfl | rfl | rfl | rfl | rfl | rfl | rfl <;> decide

theorem not_isSpace_of_isFlagLetter {c : Char} (h : isFlagLetter c = true) :
    isSpace c = false := by
  rcases isFlagLetter_cases h with rfl | rfl | rfl | rfl | rfl | rfl | rfl | rfl <;> decide

theorem not_isModifierChar_of_isFlagLetter {c : Char} (h : isFlagLetter c = true) :
    isModifierChar c = false := by
  rcases isFlagLetter_cases h with rfl | rfl | rfl | rfl | rfl | rfl | rfl | rfl <;> decide

theorem letterBit_lt (c : Char) : letterBit c < 256 := by
  unfold letterBit
  split_ifs <;> decide

/-- One turn of the flagset loop on a letter that stands for a bit. -/
theorem scanFlags_cons_letter (c : Char) (rest : List Char) (flags found : Nat)
    (h : isFlagLetter c = true) :
    scanFlags (c :: rest) flags found =
      scanFlags rest (u8 (flags ||| letterBit c)) (found + 1) := by
  rcases isFlagLetter_cases h with rfl | rfl | rfl | rfl | rfl | rfl | rfl | rfl <;>
    simp [scanFlags, letterBit]

/-- The flagset loop on letters that stand for a bit: it reaches the end of
the string with the OR of the bits and one count per letter. -/
theorem scanFlags_letters (fs : List Char) :
    ∀ flags found, flags < 256 → (∀ c ∈ fs, isFlagLetter c = true) →
      scanFlags fs flags found =
        FlagScan.finished (fs.foldl (fun acc c => acc ||| letterBit c) flags)
          (found + fs.length) := by
  induction fs with
  | nil => intro flags found _ _; simp [scanFlags]
  | cons c rest ih =>
    intro flags found hf hall
    have hc : isFlagLetter c = true := hall c (List.mem_cons_self _ _)
    have hlt : flags ||| letterBit c < 256 :=
      Nat.or_lt_two_pow (n := 8) hf (letterBit_lt c)
    rw [scanFlags_cons_letter c rest flags found hc, u8_of_lt hlt,
      ih _ _ hlt (fun x hx => hall x (List.mem_cons_of_mem _ hx))]
    simp only [List.foldl_cons, List.length_cons]
    congr 1
    omega

/-- The match of `PARSE_REGEX` on a flagset of letters alone: group 2 is the
whole text, groups 1 and 3 take no part. -/
theorem pcre_exec_letters (fs : List Char) (hne : fs ≠ [])
    (hall : ∀ c ∈ fs, isFlagLetter c = true) :
    pcre_exec fs = some ⟨none, fs, none⟩ := by
  obtain ⟨c, rest, rfl⟩ := List.exists_cons_of_ne_nil hne
  have hc : isFlagLetter c = true := hall c (List.mem_cons_self _ _)
  have hflag : ∀ x ∈ c :: rest, isFlagChar x = true :=
    fun x hx => isFlagChar_of_isFlagLetter (hall x hx)
  have h1 : (c :: rest).dropWhile isSpace = c :: rest :=
    List.dropWhile_cons_of_neg (by simp [not_isSpace_of_isFlagLetter hc])
  have h2 : takeModifier (c :: rest) = (none, c :: rest) := by
    simp [takeModifier, not_isModifierChar_of_isFlagLetter hc]
  have h3 : (c :: rest).takeWhile isFlagChar = c :: rest :=
    List.takeWhile_eq_self_iff.mpr hflag
  have h4 : (c :: rest).dropWhile isFlagChar = [] :=
    List.dropWhile_eq_nil_iff.mpr hflag
  simp only [pcre_exec, h1, h2, h3, h4]
  simp [matchIgnorePart]

/-- The match of `PARSE_REGEX` on a modifier character followed by a flagset
of letters: group 1 is the modifier, group 2 the flagset. -/
theorem pcre_exec_modifier_letters (m : Char) (fs : List Char)
    (hm : isModifierChar m = true) (hne : fs ≠ [])
    (hall : ∀ c ∈ fs, isFlagLetter c = true) :
    pcre_exec (m :: fs) = some ⟨some [m], fs, none⟩ := by
  obtain ⟨c, rest, rfl⟩ := List.exists_cons_of_ne_nil hne
  have hc : isFlagLetter c = true := hall c (List.mem_cons_self _ _)
  have hflag : ∀ x ∈ c :: rest, isFlagChar x = true :=
    fun x hx => isFlagChar_of_isFlagLetter (hall x hx)
  have hms : isSpace m = false := by
    have : m = '+' ∨ m = '*' ∨ m = '!' := by simpa [isModifierChar, or_assoc] using hm
    rcases this with rfl | rfl | rfl <;> decide
  have h0 : (m :: c :: rest).dropWhile isSpace = m :: c :: rest :=
    List.dropWhile_cons_of_neg (by simp [hms])
  have h1 : (c :: rest).dropWhile isSpace = c :: rest :=
    List.dropWhile_cons_of_neg (by simp [not_isSpace_of_isFlagLetter hc])
  have h2 : takeModifier (m :: c :: rest) = (some [m], c :: rest) := by
    simp [takeModifier, hm]
  have h3 : (c :: rest).takeWhile isFlagChar = c :: rest :=
    List.takeWhile_eq_self_iff.mpr hflag
  have h4 : (c :: rest).dropWhile isFlagChar = [] :=
    List.dropWhile_eq_nil_iff.mpr hflag
  simp only [pcre_exec, h0, h1, h2, h3, h4]
  simp [matchIgnorePart]

/-- The bits of the OR of the letters: bit `i` is set exactly when it is set
in the starting value or in the bit of some letter of the text. -/
theorem foldl_or_testBit (fs : List Char) :
    ∀ acc i, (fs.foldl (fun a c => a ||| letterBit c) acc).testBit i =
      (acc.testBit i || fs.any (fun c => (letterBit c).testBit i)) := by
  induction fs with
  | nil => intro acc i; simp
  | cons c rest ih =>
    intro acc i
    simp only [List.foldl_cons, ih, Nat.testBit_or, List.any_cons, Bool.or_assoc]

/-- The OR of the letters depends only on which letters occur. -/
theorem orOfLetters_congr (fs fs' : List Char) (h : ∀ c, c ∈ fs' ↔ c ∈ fs) :
    orOfLetters fs' = orOfLetters fs := by
  apply Nat.eq_of_testBit_eq
  intro i
  unfold orOfLetters
  rw [foldl_or_testBit, foldl_or_testBit]
  congr 1
  rw [Bool.eq_iff_iff]
  simp only [List.any_eq_true]
  constructor
  · rintro ⟨x, hx, hp⟩; exact ⟨x, (h x).mp hx, hp⟩
  · rintro ⟨x, hx, hp⟩; exact ⟨x, (h x).mpr hx, hp⟩

/-- The descriptor of a flagset of letters after the match of the grammar. -/
theorem DetectFlagsParse_of_captures (rawstr fs : List Char) (g1 : Option (List Char))
    (hne : fs ≠ []) (hall : ∀ c ∈ fs, isFlagLetter c = true)
    (hexec : pcre_exec rawstr = some ⟨g1, fs, none⟩) :
    DetectFlagsParse rawstr = some ⟨orOfLetters fs, parseModifier (g1.getD []) 0, 0xff⟩ := by
  have hlen : 0 + fs.length ≠ 0 := by
    have := List.length_pos.mpr hne
    omega
  unfold DetectFlagsParse
  rw [hexec]
  simp only [scanFlags_letters fs 0 0 (by decide) hall, if_neg hlen]
  rfl

/-- C10: for a non-empty flagset `fs` made of the letters `S A F R P U 1 2`,
without ignore clause, `DetectFlagsParse` succeeds on `fs`, `!fs`, `+fs` and
`*fs` with the modifier None (0), Not, Plus and Any respectively,
`required_flags` the bitwise OR of the bits of the letters and
`ignored_flags = 0xFF`. The OR depends only on which letters occur, not on
their order or repetition, and for a single letter it is the bit of that
letter. -/
theorem c10_parse_flagset_without_ignore (fs : List Char) (hne : fs ≠ [])
    (hall : ∀ c ∈ fs, isFlagLetter c = true) :
    DetectFlagsParse fs = some ⟨orOfLetters fs, 0, 0xff⟩ ∧
    DetectFlagsParse ('!' :: fs) = some ⟨orOfLetters fs, MODIFIER_NOT, 0xff⟩ ∧
    DetectFlagsParse ('+' :: fs) = some ⟨orOfLetters fs, MODIFIER_PLUS, 0xff⟩ ∧
    DetectFlagsParse ('*' :: fs) = some ⟨orOfLetters fs, MODIFIER_ANY, 0xff⟩ ∧
    (∀ fs', (∀ c, c ∈ fs' ↔ c ∈ fs) → orOfLetters fs' = orOfLetters fs) ∧
    (∀ X, fs = [X] → orOfLetters fs = letterBit X) := by
  refine ⟨?_, ?_, ?_, ?_, ?_, ?_⟩
  · exact DetectFlagsParse_of_captures fs fs none hne hall (pcre_exec_letters fs hne hall)
  · exact DetectFlagsParse_of_captures _ fs (some ['!']) hne hall
      (pcre_exec_modifier_letters '!' fs (by decide) hne hall)
  · exact DetectFlagsParse_of_captures _ fs (some ['+']) hne hall
      (pcre_exec_modifier_letters '+' fs (by decide) hne hall)
  · exact DetectFlagsParse_of_captures _ fs (some ['*']) hne hall
      (pcre_exec_modifier_letters '*' fs (by decide) hne hall)
  · exact fun fs' h => orOfLetters_congr fs fs' h
  · rintro X rfl
    simp [orOfLetters]

/-- Witness of C10 on the flagset `PA`: `"!PA"` gives the descriptor of
`"!AP"` (the inputs of `FlagsTestParse09` and `FlagsTestParse10`). -/
theorem c10_parse_flagset_without_ignore_witness :
    DetectFlagsParse "!PA".toList = some ⟨orOfLetters "PA".toList, MODIFIER_NOT, 0xff⟩ ∧
    orOfLetters "AP".toList = orOfLetters "PA".toList ∧
    orOfLetters "PA".toList = TH_ACK ||| TH_PUSH :=
  ⟨(c10_parse_flagset_without_ignore "PA".toList (by decide) (by decide)).2.1,
   (c10_parse_flagset_without_ignore "PA".toList (by decide) (by decide)).2.2.2.2.1
     "AP".toList
     (fun c => by show c ∈ ['A', 'P'] ↔ c ∈ ['P', 'A']; simp [or_comm]),
   by decide⟩


/-! ## The width of the Plus remainder arithmetic -/

/-- C18: the Plus remainder test does not depend on the arithmetic width. For
all values of `required_flags` and all bytes `ignored_flags` and observed, the
test computed in C `int` has the same truth value as the test computed in
unsigned 8-bit arithmetic modulo 256; the difference `observed - relevant` is
never negative and the sum stays below `0x1FF`. `DetectFlagsMatch` under Plus
is the conjunction of `relevant == required_flags` with either form. -/
theorem c18_plus_remainder_width_insensitive
    (p : Packet) (required ignored obs : Nat)
    (hip : PKT_IS_IPV4 p = true) (htcp : p.tcph = some ⟨obs⟩)
    (hg : ignored < 256) (ho : obs < 256) :
    plusRemainderInt required ignored obs = plusRemainderU8 required ignored obs ∧
    (0 : Int) ≤ (obs : Int) - ((obs &&& required &&& ignored : Nat) : Int) ∧
    ((obs : Int) - ((obs &&& required &&& ignored : Nat) : Int)) + (ignored : Int) < 0x1ff ∧
    DetectFlagsMatch p (some ⟨required, MODIFIER_PLUS, ignored⟩) =
      (if obs &&& required &&& ignored = required ∧
          plusRemainderInt required ignored obs = true then 1 else 0) ∧
    DetectFlagsMatch p (some ⟨required, MODIFIER_PLUS, ignored⟩) =
      (if obs &&& required &&& ignored = required ∧
          plusRemainderU8 required ignored obs = true then 1 else 0) := by
  have hle : obs &&& required &&& ignored ≤ obs :=
    le_trans Nat.and_le_left Nat.and_le_left
  have hsame : plusRemainderInt required ignored obs = plusRemainderU8 required ignored obs := by
    unfold plusRemainderInt plusRemainderU8 u8
    rw [decide_eq_decide]
    omega
  have hnat : plusRemainderInt required ignored obs = true ↔
      (obs - (obs &&& required &&& ignored)) + ignored ≠ 0xff := by
    unfold plusRemainderInt
    rw [decide_eq_true_iff]
    omega
  have hmatch : DetectFlagsMatch p (some ⟨required, MODIFIER_PLUS, ignored⟩) =
      (if obs &&& required &&& ignored = required ∧
          plusRemainderInt required ignored obs = true then 1 else 0) := by
    rw [DetectFlagsMatch_eq p _ obs hip htcp ho]
    simp only [hnat]
    simp [u8, MODIFIER_ANY, MODIFIER_PLUS]
  refine ⟨hsame, by omega, by omega, hmatch, ?_⟩
  rw [← hsame]
  exact hmatch

/-- Witness of C18 on the masks of `"+AP,SR"` and the flag byte
ACK|PSH|SYN|RST, where the sum is exactly `0xFF`. -/
theorem c18_plus_remainder_width_insensitive_witness :
    plusRemainderInt (TH_ACK ||| TH_PUSH) 0xf9 (TH_ACK ||| TH_PUSH ||| TH_SYN ||| TH_RST) = false ∧
    plusRemainderInt (TH_ACK ||| TH_PUSH) 0xf9 (TH_ACK ||| TH_PUSH ||| TH_SYN ||| TH_RST) =
      plusRemainderU8 (TH_ACK ||| TH_PUSH) 0xf9 (TH_ACK ||| TH_PUSH ||| TH_SYN ||| TH_RST) :=
  ⟨by decide,
   (c18_plus_remainder_width_insensitive
      (tcpPacket (TH_ACK ||| TH_PUSH ||| TH_SYN ||| TH_RST)) (TH_ACK ||| TH_PUSH) 0xf9
      (TH_ACK ||| TH_PUSH ||| TH_SYN ||| TH_RST) rfl rfl (by decide) (by decide)).1⟩

/-! ## Degenerate descriptors -/

/-- C19: a required bit that is also ignored makes the descriptor degenerate.
When some bit of `required_flags` is cleared in `ignored_flags`, then on every
observed byte of an IPv4 packet with a TCP header `DetectFlagsMatch` returns 0
under the modifier None, 0 under Plus and 1 under Not. -/
theorem c19_required_bit_ignored_is_degenerate
    (p : Packet) (required ignored obs : Nat)
    (hip : PKT_IS_IPV4 p = true) (htcp : p.tcph = some ⟨obs⟩) (ho : obs < 256)
    (hbit : ∃ i, required.testBit i = true ∧ ignored.testBit i = false) :
    DetectFlagsMatch p (some ⟨required, 0, ignored⟩) = 0 ∧
    DetectFlagsMatch p (some ⟨required, MODIFIER_PLUS, ignored⟩) = 0 ∧
    DetectFlagsMatch p (some ⟨required, MODIFIER_NOT, ignored⟩) = 1 := by
  have hrel : ¬ (obs &&& required &&& ignored = required) := by
    intro h
    obtain ⟨i, hri, hgi⟩ := hbit
    have := (and_eq_right_iff_testBit ignored required).mp
      ((relevant_eq_flags_iff obs required ignored).mp h).2 i hri
    rw [hgi] at this
    exact Bool.false_ne_true this
  refine ⟨?_, ?_, ?_⟩
  · rw [DetectFlagsMatch_eq p _ obs hip htcp ho]
    simp [hrel, MODIFIER_ANY, MODIFIER_PLUS, MODIFIER_NOT]
  · rw [DetectFlagsMatch_eq p _ obs hip htcp ho]
    simp [hrel, MODIFIER_ANY, MODIFIER_PLUS]
  · rw [DetectFlagsMatch_eq p _ obs hip htcp ho]
    simp [hrel, MODIFIER_ANY, MODIFIER_PLUS, MODIFIER_NOT]

/-- Witness of C19 on the masks of `"AP,A"` (ACK, bit 4, is required and
ignored) and the flag byte ACK|PSH; `"A,A"` compiles to such masks as well. -/
theorem c19_required_bit_ignored_is_degenerate_witness :
    DetectFlagsParse "AP,A".toList = some ⟨TH_ACK ||| TH_PUSH, 0, 0xef⟩ ∧
    DetectFlagsParse "A,A".toList = some ⟨TH_ACK, 0, 0xef⟩ ∧
    (DetectFlagsMatch (tcpPacket (TH_ACK ||| TH_PUSH)) (some ⟨TH_ACK ||| TH_PUSH, 0, 0xef⟩) = 0 ∧
     DetectFlagsMatch (tcpPacket (TH_ACK ||| TH_PUSH))
       (some ⟨TH_ACK ||| TH_PUSH, MODIFIER_PLUS, 0xef⟩) = 0 ∧
     DetectFlagsMatch (tcpPacket (TH_ACK ||| TH_PUSH))
       (some ⟨TH_ACK ||| TH_PUSH, MODIFIER_NOT, 0xef⟩) = 1) :=
  ⟨by decide, by decide,
   c19_required_bit_ignored_is_degenerate (tcpPacket (TH_ACK ||| TH_PUSH))
     (TH_ACK ||| TH_PUSH) 0xef (TH_ACK ||| TH_PUSH) rfl rfl (by decide)
     ⟨4, by decide, by decide⟩⟩

/-- C20: the zero-flags descriptor does not test for "no flags set". With
`required_flags = 0`, on every observed byte of an IPv4 packet with a TCP
header `DetectFlagsMatch` returns 1 under None, 0 under Not and 0 under Any,
whatever `ignored_flags` is; under Plus with nothing ignored
(`ignored_flags = 0xFF`) it returns 1 exactly when the observed byte is not 0,
and 0 when it is 0. -/
theorem c20_zero_flags_descriptor
    (p : Packet) (ignored obs : Nat)
    (hip : PKT_IS_IPV4 p = true) (htcp : p.tcph = some ⟨obs⟩) (ho : obs < 256) :
    DetectFlagsMatch p (some ⟨0, 0, ignored⟩) = 1 ∧
    DetectFlagsMatch p (some ⟨0, MODIFIER_NOT, ignored⟩) = 0 ∧
    DetectFlagsMatch p (some ⟨0, MODIFIER_ANY, ignored⟩) = 0 ∧
    DetectFlagsMatch p (some ⟨0, MODIFIER_PLUS, 0xff⟩) = (if obs ≠ 0 then 1 else 0) := by
  refine ⟨?_, ?_, ?_, ?_⟩
  · rw [DetectFlagsMatch_eq p _ obs hip htcp ho]
    simp [u8, MODIFIER_ANY, MODIFIER_PLUS, MODIFIER_NOT]
  · rw [DetectFlagsMatch_eq p _ obs hip htcp ho]
    simp [u8, MODIFIER_ANY, MODIFIER_PLUS, MODIFIER_NOT]
  · rw [DetectFlagsMatch_eq p _ obs hip htcp ho]
    simp [u8, MODIFIER_ANY]
  · rw [DetectFlagsMatch_eq p _ obs hip htcp ho]
    simp [u8, MODIFIER_ANY, MODIFIER_PLUS]

/-- Witness of C20 on the descriptors of `"0"`, `"!0"`, `"*0"`, `"+0"` and the
flag byte SYN. -/
theorem c20_zero_flags_descriptor_witness :
    DetectFlagsParse "0".toList = some ⟨0, 0, 0xff⟩ ∧
    DetectFlagsParse "!0".toList = some ⟨0, MODIFIER_NOT, 0xff⟩ ∧
    DetectFlagsParse "*0".toList = some ⟨0, MODIFIER_ANY, 0xff⟩ ∧
    DetectFlagsParse "+0".toList = some ⟨0, MODIFIER_PLUS, 0xff⟩ ∧
    (DetectFlagsMatch (tcpPacket TH_SYN) (some ⟨0, 0, 0xff⟩) = 1 ∧
     DetectFlagsMatch (tcpPacket TH_SYN) (some ⟨0, MODIFIER_NOT, 0xff⟩) = 0 ∧
     DetectFlagsMatch (tcpPacket TH_SYN) (some ⟨0, MODIFIER_ANY, 0xff⟩) = 0 ∧
     DetectFlagsMatch (tcpPacket TH_SYN) (some ⟨0, MODIFIER_PLUS, 0xff⟩) =
       (if TH_SYN ≠ 0 then 1 else 0)) :=
  ⟨by decide, by decide, by decide, by decide,
   c20_zero_flags_descriptor (tcpPacket TH_SYN) 0xff TH_SYN rfl rfl (by decide)⟩

/-! ## The grammar, piece by piece -/

theorem not_isSpace_of_isFlagChar {c : Char} (h : isFlagChar c = true) : isSpace c = false := by
  have : c = 'S' ∨ c = 'A' ∨ c = 'P' ∨ c = 'R' ∨ c = 'F' ∨ c = 'U' ∨ c = '1' ∨ c = '2' ∨
      c = '0' := by
    simpa [isFlagChar, or_assoc] using h
  rcases this with rfl | rfl | rfl | rfl | rfl | rfl | rfl | rfl | rfl <;> decide

theorem not_isModifierChar_of_isFlagChar {c : Char} (h : isFlagChar c = true) :
    isModifierChar c = false := by
  have : c = 'S' ∨ c = 'A' ∨ c = 'P' ∨ c = 'R' ∨ c = 'F' ∨ c = 'U' ∨ c = '1' ∨ c = '2' ∨
      c = '0' := by
    simpa [isFlagChar, or_assoc] using h
  rcases this with rfl | rfl | rfl | rfl | rfl | rfl | rfl | rfl | rfl <;> decide

theorem not_isSpace_of_isModifierChar {c : Char} (h : isModifierChar c = true) :
    isSpace c = false := by
  have : c = '+' ∨ c = '*' ∨ c = '!' := by simpa [isModifierChar, or_assoc] using h
  rcases this with rfl | rfl | rfl <;> decide

theorem not_isFlagChar_of_isSpace {c : Char} (h : isSpace c = true) : isFlagChar c = false := by
  cases hf : isFlagChar c with
  | false => rfl
  | true => rw [not_isSpace_of_isFlagChar hf] at h; exact absurd h (by decide)

/-- White space in front of a character that is not white space is dropped
up to that character. -/
theorem dropWhile_isSpace_append_cons (w : List Char) (c : Char) (r : List Char)
    (hw : ∀ x ∈ w, isSpace x = true) (hc : isSpace c = false) :
    (w ++ c :: r).dropWhile isSpace = c :: r := by
  rw [List.dropWhile_append_of_pos hw]
  exact List.dropWhile_cons_of_neg (by simp [hc])

/-- The match of `PARSE_REGEX` on white space, a modifier slot, white space and
a rest `c :: r` that starts the flagset: the flagset is the longest run over
the alphabet at the start of the rest, and the match goes on behind it. -/
theorem pcre_exec_of_prefix (w1 m w2 : List Char) (c : Char) (r : List Char)
    (hw1 : ∀ x ∈ w1, isSpace x = true) (hm : isModifierSlot m = true)
    (hw2 : ∀ x ∈ w2, isSpace x = true) (hc : isSpace c = false)
    (hcm : m = [] → isModifierChar c = false) :
    pcre_exec (w1 ++ m ++ w2 ++ c :: r) =
      if (c :: r).takeWhile isFlagChar = [] then none
      else
        match matchIgnorePart (((c :: r).dropWhile isFlagChar).dropWhile isSpace) with
        | none => none
        | some g3 => some ⟨groupOfSlot m, (c :: r).takeWhile isFlagChar, g3⟩ := by
  have h3 : (c :: r).dropWhile isSpace = c :: r :=
    List.dropWhile_cons_of_neg (by simp [hc])
  match m, hm, hcm with
  | [], _, hcm =>
    have hw : ∀ x ∈ w1 ++ w2, isSpace x = true := by
      intro x hx
      rcases List.mem_append.mp hx with h | h
      · exact hw1 x h
      · exact hw2 x h
    have h1 : (w1 ++ [] ++ w2 ++ c :: r).dropWhile isSpace = c :: r := by
      rw [List.append_nil]
      exact dropWhile_isSpace_append_cons (w1 ++ w2) c r hw hc
    have h2 : takeModifier (c :: r) = (none, c :: r) := by
      simp [takeModifier, hcm rfl]
    simp only [pcre_exec, h1, h2, h3, groupOfSlot]
  | [d], hm, _ =>
    have hd : isModifierChar d = true := by simpa [isModifierSlot] using hm
    have h1 : (w1 ++ [d] ++ w2 ++ c :: r).dropWhile isSpace = d :: (w2 ++ c :: r) := by
      have : w1 ++ [d] ++ w2 ++ c :: r = w1 ++ d :: (w2 ++ c :: r) := by simp
      rw [this]
      exact dropWhile_isSpace_append_cons w1 d _ hw1 (not_isSpace_of_isModifierChar hd)
    have h2 : takeModifier (d :: (w2 ++ c :: r)) = (some [d], w2 ++ c :: r) := by
      simp [takeModifier, hd]
    have h4 : (w2 ++ c :: r).dropWhile isSpace = c :: r :=
      dropWhile_isSpace_append_cons w2 c r hw2 hc
    simp only [pcre_exec, h1, h2, h4, groupOfSlot]
  | _ :: _ :: _, hm, _ => exact absurd hm (by simp [isModifierSlot])

/-- The flagset of a clause is what the grammar captures as group 2 when the
text behind it does not go on with a character of the alphabet. -/
theorem pcre_exec_of_flagset (w1 m w2 fs tail : List Char)
    (hw1 : ∀ x ∈ w1, isSpace x = true) (hm : isModifierSlot m = true)
    (hw2 : ∀ x ∈ w2, isSpace x = true) (hne : fs ≠ [])
    (hfs : ∀ x ∈ fs, isFlagChar x = true)
    (htail : ∀ c r, tail = c :: r → isFlagChar c = false) :
    pcre_exec (w1 ++ m ++ w2 ++ fs ++ tail) =
      match matchIgnorePart (tail.dropWhile isSpace) with
      | none => none
      | some g3 => some ⟨groupOfSlot m, fs, g3⟩ := by
  obtain ⟨c, r, rfl⟩ := List.exists_cons_of_ne_nil hne
  have hc : isFlagChar c = true := hfs c (List.mem_cons_self _ _)
  have htw : (c :: r ++ tail).takeWhile isFlagChar = c :: r := by
    rw [List.takeWhile_append_of_pos hfs]
    cases tail with
    | nil => simp
    | cons t ts => simp [htail t ts rfl]
  have hdw : (c :: r ++ tail).dropWhile isFlagChar = tail := by
    rw [List.dropWhile_append_of_pos hfs]
    cases tail with
    | nil => simp
    | cons t ts => simp [htail t ts rfl]
  have := pcre_exec_of_prefix w1 m w2 c (r ++ tail) hw1 hm hw2
    (not_isSpace_of_isFlagChar hc) (fun _ => not_isModifierChar_of_isFlagChar hc)
  rw [List.append_assoc, List.cons_append, this, ← List.cons_append, htw, hdw]
  simp

/-- The match of `PARSE_REGEX` on a clause without ignore part. -/
theorem pcre_exec_clauseText (w1 m w2 fs w3 : List Char)
    (hw1 : ∀ x ∈ w1, isSpace x = true) (hm : isModifierSlot m = true)
    (hw2 : ∀ x ∈ w2, isSpace x = true) (hne : fs ≠ [])
    (hfs : ∀ x ∈ fs, isFlagChar x = true) (hw3 : ∀ x ∈ w3, isSpace x = true) :
    pcre_exec (clauseText w1 m w2 fs w3) = some ⟨groupOfSlot m, fs, none⟩ := by
  unfold clauseText
  rw [pcre_exec_of_flagset w1 m w2 fs w3 hw1 hm hw2 hne hfs
    (fun c r h => not_isFlagChar_of_isSpace (hw3 c (h ▸ List.mem_cons_self _ _)))]
  rw [List.dropWhile_eq_nil_iff.mpr hw3]
  simp [matchIgnorePart]

/-- The match of `PARSE_REGEX` on a clause with ignore part. -/
theorem pcre_exec_clauseTextIgnore (w1 m w2 fs w3 w4 ig w5 : List Char)
    (hw1 : ∀ x ∈ w1, isSpace x = true) (hm : isModifierSlot m = true)
    (hw2 : ∀ x ∈ w2, isSpace x = true) (hne : fs ≠ [])
    (hfs : ∀ x ∈ fs, isFlagChar x = true) (hw3 : ∀ x ∈ w3, isSpace x = true)
    (hw4 : ∀ x ∈ w4, isSpace x = true) (hine : ig ≠ [])
    (hig : ∀ x ∈ ig, isFlagChar x = true) (hw5 : ∀ x ∈ w5, isSpace x = true) :
    pcre_exec (clauseTextIgnore w1 m w2 fs w3 w4 ig w5) =
      some ⟨groupOfSlot m, fs, some ig⟩ := by
  have hshape : clauseTextIgnore w1 m w2 fs w3 w4 ig w5 =
      w1 ++ m ++ w2 ++ fs ++ (w3 ++ ',' :: (w4 ++ ig ++ w5)) := by
    simp [clauseTextIgnore]
  have htail : ∀ c r, w3 ++ ',' :: (w4 ++ ig ++ w5) = c :: r → isFlagChar c = false := by
    intro c r h
    cases w3 with
    | nil =>
      simp only [List.nil_append, List.cons.injEq] at h
      rw [← h.1]; decide
    | cons t ts =>
      simp only [List.cons_append, List.cons.injEq] at h
      rw [← h.1]
      exact not_isFlagChar_of_isSpace (hw3 t (List.mem_cons_self _ _))
  obtain ⟨i, irest, rfl⟩ := List.exists_cons_of_ne_nil hine
  have hi : isFlagChar i = true := hig i (List.mem_cons_self _ _)
  have h5 : (w3 ++ ',' :: (w4 ++ (i :: irest) ++ w5)).dropWhile isSpace =
      ',' :: (w4 ++ (i :: irest) ++ w5) :=
    dropWhile_isSpace_append_cons w3 ',' _ hw3 (by decide)
  have h6 : (w4 ++ (i :: irest) ++ w5).dropWhile isSpace = i :: irest ++ w5 := by
    rw [List.append_assoc, List.cons_append]
    exact dropWhile_isSpace_append_cons w4 i _ hw4 (not_isSpace_of_isFlagChar hi)
  have hw5f : w5.takeWhile isFlagChar = [] := by
    cases w5 with
    | nil => rfl
    | cons t ts =>
      simp [not_isFlagChar_of_isSpace (hw5 t (List.mem_cons_self _ _))]
  have hw5d : w5.dropWhile isFlagChar = w5 := by
    cases w5 with
    | nil => rfl
    | cons t ts =>
      simp [not_isFlagChar_of_isSpace (hw5 t (List.mem_cons_self _ _))]
  have h7 : (i :: irest ++ w5).takeWhile isFlagChar = i :: irest := by
    rw [List.takeWhile_append_of_pos hig, hw5f, List.append_nil]
  have h8 : (i :: irest ++ w5).dropWhile isFlagChar = w5 := by
    rw [List.dropWhile_append_of_pos hig, hw5d]
  rw [hshape, pcre_exec_of_flagset w1 m w2 fs _ hw1 hm hw2 hne hfs htail, h5]
  simp only [matchIgnorePart, h6, h7, h8, List.dropWhile_eq_nil_iff.mpr hw5]
  simp


/-! ## Every match of the grammar is a clause -/

/-- The modifier piece splits a text into a modifier slot and the rest. -/
theorem takeModifier_spec (s : List Char) :
    ∃ m, isModifierSlot m = true ∧ s = m ++ (takeModifier s).2 ∧
      (takeModifier s).1 = groupOfSlot m := by
  cases s with
  | nil => exact ⟨[], rfl, rfl, rfl⟩
  | cons c r =>
    by_cases hc : isModifierChar c = true
    · refine ⟨[c], by simpa [isModifierSlot] using hc, ?_, ?_⟩ <;>
        simp [takeModifier, hc, groupOfSlot]
    · refine ⟨[], rfl, ?_, ?_⟩ <;> simp [takeModifier, hc, groupOfSlot]

theorem mem_takeWhile_isSpace {s : List Char} : ∀ x ∈ s.takeWhile isSpace, isSpace x = true :=
  fun _ hx => List.mem_takeWhile_imp hx

theorem mem_takeWhile_isFlagChar {s : List Char} :
    ∀ x ∈ s.takeWhile isFlagChar, isFlagChar x = true :=
  fun _ hx => List.mem_takeWhile_imp hx

/-- What a successful match of the ignore piece says about its input. -/
theorem matchIgnorePart_spec (s : List Char) (g3 : Option (List Char))
    (h : matchIgnorePart s = some g3) :
    (s = [] ∧ g3 = none) ∨
    ∃ w4 ig w5 : List Char,
      (∀ c ∈ w4, isSpace c = true) ∧ ig ≠ [] ∧ (∀ c ∈ ig, isFlagChar c = true) ∧
      (∀ c ∈ w5, isSpace c = true) ∧ s = ',' :: (w4 ++ ig ++ w5) ∧ g3 = some ig := by
  cases s with
  | nil =>
    left
    simp only [matchIgnorePart, Option.some.injEq] at h
    exact ⟨rfl, h.symm⟩
  | cons c r =>
    right
    simp only [matchIgnorePart] at h
    split_ifs at h with hc hg hs
    simp only [Option.some.injEq] at h
    refine ⟨r.takeWhile isSpace, (r.dropWhile isSpace).takeWhile isFlagChar,
      (r.dropWhile isSpace).dropWhile isFlagChar, mem_takeWhile_isSpace, hg,
      mem_takeWhile_isFlagChar, List.dropWhile_eq_nil_iff.mp hs, ?_, h.symm⟩
    rw [hc, List.append_assoc, List.takeWhile_append_dropWhile,
      List.takeWhile_append_dropWhile]

/-- Soundness of the match: a text that `PARSE_REGEX` matches is a clause,
and groups 2 and 3 are its flagset and its ignore set. -/
theorem pcre_exec_sound (text : List Char) (cap : Captures)
    (h : pcre_exec text = some cap) :
    ∃ w1 m w2 w3 : List Char,
      (∀ c ∈ w1, isSpace c = true) ∧ isModifierSlot m = true ∧
      (∀ c ∈ w2, isSpace c = true) ∧ cap.group2 ≠ [] ∧
      (∀ c ∈ cap.group2, isFlagChar c = true) ∧ (∀ c ∈ w3, isSpace c = true) ∧
      cap.group1 = groupOfSlot m ∧
      ((text = clauseText w1 m w2 cap.group2 w3 ∧ cap.group3 = none) ∨
       ∃ w4 ig w5 : List Char,
         (∀ c ∈ w4, isSpace c = true) ∧ ig ≠ [] ∧ (∀ c ∈ ig, isFlagChar c = true) ∧
         (∀ c ∈ w5, isSpace c = true) ∧
         text = clauseTextIgnore w1 m w2 cap.group2 w3 w4 ig w5 ∧ cap.group3 = some ig) := by
  obtain ⟨m, hm, hsplit, hg1⟩ := takeModifier_spec (text.dropWhile isSpace)
  simp only [pcre_exec] at h
  split_ifs at h with hg2
  split at h
  · exact absurd h (by simp)
  · rename_i g3 hg3
    simp only [Option.some.injEq] at h
    subst h
    have htext : text = text.takeWhile isSpace ++ (m ++
        (((takeModifier (text.dropWhile isSpace)).2).takeWhile isSpace ++
          ((((takeModifier (text.dropWhile isSpace)).2).dropWhile isSpace).takeWhile isFlagChar ++
            (((((takeModifier (text.dropWhile isSpace)).2).dropWhile isSpace).dropWhile
                isFlagChar).takeWhile isSpace ++
              ((((takeModifier (text.dropWhile isSpace)).2).dropWhile isSpace).dropWhile
                isFlagChar).dropWhile isSpace)))) := by
      rw [List.takeWhile_append_dropWhile, List.takeWhile_append_dropWhile,
        List.takeWhile_append_dropWhile, ← hsplit, List.takeWhile_append_dropWhile]
    refine ⟨text.takeWhile isSpace, m,
      ((takeModifier (text.dropWhile isSpace)).2).takeWhile isSpace,
      ((((takeModifier (text.dropWhile isSpace)).2).dropWhile isSpace).dropWhile
        isFlagChar).takeWhile isSpace,
      mem_takeWhile_isSpace, hm, mem_takeWhile_isSpace, hg2, mem_takeWhile_isFlagChar,
      mem_takeWhile_isSpace, hg1, ?_⟩
    rcases matchIgnorePart_spec _ g3 hg3 with ⟨hnil, hnone⟩ | ⟨w4, ig, w5, hw4, hine, hig, hw5, hs, hsome⟩
    · left
      refine ⟨?_, hnone⟩
      rw [hnil, List.append_nil] at htext
      simpa [clauseText] using htext
    · right
      refine ⟨w4, ig, w5, hw4, hine, hig, hw5, ?_, hsome⟩
      rw [hs] at htext
      simpa [clauseTextIgnore] using htext

/-- A text the grammar matches is a clause. -/
theorem isClause_of_pcre_exec (text : List Char) (cap : Captures)
    (h : pcre_exec text = some cap) : IsClause text := by
  obtain ⟨w1, m, w2, w3, hw1, hm, hw2, hne, hfs, hw3, _, hshape⟩ := pcre_exec_sound text cap h
  refine ⟨w1, m, w2, cap.group2, w3, hw1, hm, hw2, hne, hfs, hw3, ?_⟩
  rcases hshape with ⟨ht, _⟩ | ⟨w4, ig, w5, hw4, hine, hig, hw5, ht, _⟩
  · exact Or.inl ht
  · exact Or.inr ⟨w4, ig, w5, hw4, hine, hig, hw5, ht⟩

/-- Completeness of the match: the grammar matches every clause. -/
theorem pcre_exec_isSome_of_isClause (text : List Char) (h : IsClause text) :
    (pcre_exec text).isSome = true := by
  obtain ⟨w1, m, w2, fs, w3, hw1, hm, hw2, hne, hfs, hw3, hshape⟩ := h
  rcases hshape with ht | ⟨w4, ig, w5, hw4, hine, hig, hw5, ht⟩
  · rw [ht, pcre_exec_clauseText w1 m w2 fs w3 hw1 hm hw2 hne hfs hw3]; rfl
  · rw [ht, pcre_exec_clauseTextIgnore w1 m w2 fs w3 w4 ig w5 hw1 hm hw2 hne hfs hw3 hw4 hine
      hig hw5]; rfl

/-- The grammar matches exactly the clauses. -/
theorem isClause_iff_pcre_exec (text : List Char) :
    IsClause text ↔ (pcre_exec text).isSome = true := by
  constructor
  · exact pcre_exec_isSome_of_isClause text
  · intro h
    obtain ⟨cap, hcap⟩ := Option.isSome_iff_exists.mp h
    exact isClause_of_pcre_exec text cap hcap

/-- C14: the grammar is anchored and has one modifier slot. A text that is not
of the shape `ws* modifier? ws* flagset (ws* ',' ws* ignoreset)? ws*`, with
`modifier` one of `!`, `+`, `*` and `flagset`, `ignoreset` non-empty runs over
`SAPRFU120`, makes `DetectFlagsParse` fail: no descriptor is returned. -/
theorem c14_not_a_clause_fails (text : List Char) (h : ¬ IsClause text) :
    DetectFlagsParse text = none := by
  have hnone : pcre_exec text = none := by
    cases hp : pcre_exec text with
    | none => rfl
    | some cap => exact absurd (isClause_of_pcre_exec text cap hp) h
  unfold DetectFlagsParse
  rw [hnone]

/-- Witness of C14 on two modifier characters (`"+*AP"`); the other texts the
claim names fail as well: `"!!S"`, the empty text, `"+"`, `",SR"`, `"AP,"`,
`"AP,S,R"` and `"AP x"`. -/
theorem c14_not_a_clause_fails_witness :
    ¬ IsClause "+*AP".toList ∧ DetectFlagsParse "+*AP".toList = none ∧
    DetectFlagsParse "!!S".toList = none ∧ DetectFlagsParse "".toList = none ∧
    DetectFlagsParse "+".toList = none ∧ DetectFlagsParse ",SR".toList = none ∧
    DetectFlagsParse "AP,".toList = none ∧ DetectFlagsParse "AP,S,R".toList = none ∧
    DetectFlagsParse "AP x".toList = none :=
  ⟨fun h => absurd ((isClause_iff_pcre_exec _).mp h) (by decide),
   c14_not_a_clause_fails "+*AP".toList
     (fun h => absurd ((isClause_iff_pcre_exec _).mp h) (by decide)),
   by decide, by decide, by decide, by decide, by decide, by decide, by decide⟩


/-! ## The loops of `DetectFlagsParse` on the alphabet of the grammar -/

theorem isFlagLetter_of_isFlagChar {c : Char} (h : isFlagChar c = true) (h0 : c ≠ '0') :
    isFlagLetter c = true := by
  have : c = 'S' ∨ c = 'A' ∨ c = 'P' ∨ c = 'R' ∨ c = 'F' ∨ c = 'U' ∨ c = '1' ∨ c = '2' ∨
      c = '0' := by
    simpa [isFlagChar, or_assoc] using h
  rcases this with rfl | rfl | rfl | rfl | rfl | rfl | rfl | rfl | rfl <;>
    first | decide | exact absurd rfl h0

/-- The modifier loop on what group 1 captured for a modifier slot. -/
theorem parseModifier_groupOfSlot (m : List Char) (hm : isModifierSlot m = true) :
    parseModifier ((groupOfSlot m).getD []) 0 = modifierOfSlot m := by
  match m, hm with
  | [], _ => rfl
  | [d], hm =>
    have hd : d = '+' ∨ d = '*' ∨ d = '!' := by
      simpa [isModifierSlot, isModifierChar, or_assoc] using hm
    rcases hd with rfl | rfl | rfl <;> decide
  | _ :: _ :: _, hm => exact absurd hm (by simp [isModifierSlot])

/-- The flagset loop on a run over the alphabet that holds a `0`: it leaves
through the `return de` of `case '0'`, whatever came before. -/
theorem scanFlags_zero (fs : List Char) :
    (∀ c ∈ fs, isFlagChar c = true) → '0' ∈ fs →
      ∀ flags found, scanFlags fs flags found = FlagScan.returned := by
  induction fs with
  | nil => intro _ h0; exact absurd h0 (List.not_mem_nil _)
  | cons c rest ih =>
    intro hall h0 flags found
    by_cases hc : c = '0'
    · subst hc
      simp [scanFlags]
    · have hl : isFlagLetter c = true :=
        isFlagLetter_of_isFlagChar (hall c (List.mem_cons_self _ _)) hc
      rw [scanFlags_cons_letter c rest flags found hl]
      apply ih (fun x hx => hall x (List.mem_cons_of_mem _ hx))
      rcases List.mem_cons.mp h0 with h | h
      · exact absurd h.symm hc
      · exact h

/-- One turn of the ignore loop on a letter that stands for a bit. -/
theorem scanIgnored_cons_letter (c : Char) (rest : List Char) (ign ignore : Nat)
    (h : isFlagLetter c = true) :
    scanIgnored (c :: rest) ign ignore =
      scanIgnored rest (clearBits ign (letterBit c)) (ignore + 1) := by
  rcases isFlagLetter_cases h with rfl | rfl | rfl | rfl | rfl | rfl | rfl | rfl <;>
    simp [scanIgnored, letterBit]

/-- One turn of the ignore loop on `0`: nothing changes. -/
theorem scanIgnored_cons_zero (rest : List Char) (ign ignore : Nat) :
    scanIgnored ('0' :: rest) ign ignore = scanIgnored rest ign ignore := by
  simp [scanIgnored]

theorem testBit_255 (i : Nat) : (0xff : Nat).testBit i = decide (i < 8) := by
  have := Nat.testBit_two_pow_sub_one 8 i
  simpa using this

/-- Clearing the bits of `b` in the complement of `acc` gives the complement of
`acc ||| b` (on bytes). -/
theorem clearBits_compl (acc b : Nat) (ha : acc < 256) (hb : b < 256) :
    clearBits (0xff ^^^ acc) b = 0xff ^^^ (acc ||| b) := by
  have h1 : (0xff ^^^ acc) &&& (0xff ^^^ b) < 256 :=
    lt_of_le_of_lt Nat.and_le_left (Nat.xor_lt_two_pow (n := 8) (by decide) ha)
  unfold clearBits
  rw [u8_of_lt h1]
  apply Nat.eq_of_testBit_eq
  intro i
  simp only [Nat.testBit_and, Nat.testBit_xor, Nat.testBit_or, testBit_255]
  by_cases hi : i < 8
  · simp only [hi, decide_True]
    cases acc.testBit i <;> cases b.testBit i <;> rfl
  · have h8 : 8 ≤ i := by omega
    rw [testBit_eq_false_of_lt_256 ha h8, testBit_eq_false_of_lt_256 hb h8]
    simp [hi]

/-- On a byte, the complement written with XOR is the difference from `0xFF`. -/
theorem xor_255_eq_sub (x : Nat) (hx : x < 256) : 0xff ^^^ x = 0xff - x := by
  apply Nat.eq_of_testBit_eq
  intro i
  rw [Nat.testBit_xor, testBit_compl8 x i hx]
  rw [testBit_255]
  by_cases hi : i < 8
  · simp [hi]
  · have h8 : 8 ≤ i := by omega
    simp [hi, testBit_eq_false_of_lt_256 hx h8]

theorem foldl_or_letterBit_lt (s : List Char) :
    ∀ acc, acc < 256 → s.foldl (fun a c => a ||| letterBit c) acc < 256 := by
  induction s with
  | nil => intro acc h; simpa using h
  | cons c rest ih =>
    intro acc h
    rw [List.foldl_cons]
    exact ih _ (Nat.or_lt_two_pow (n := 8) h (letterBit_lt c))

theorem orOfLetters_lt (s : List Char) : orOfLetters s < 256 :=
  foldl_or_letterBit_lt s 0 (by decide)

/-- The ignore loop on a run over the alphabet: the mask loses the bits of the
letters, a `0` clears nothing, and `ignore` counts the letters other than `0`. -/
theorem scanIgnored_flagChars (ig : List Char) :
    ∀ acc ignore, acc < 256 → (∀ c ∈ ig, isFlagChar c = true) →
      scanIgnored ig (0xff ^^^ acc) ignore =
        (0xff ^^^ ig.foldl (fun a c => a ||| letterBit c) acc,
         ignore + ig.countP isFlagLetter) := by
  induction ig with
  | nil => intro acc ignore _ _; simp [scanIgnored]
  | cons c rest ih =>
    intro acc ignore ha hall
    have hrest : ∀ x ∈ rest, isFlagChar x = true := fun x hx => hall x (List.mem_cons_of_mem _ hx)
    by_cases hc : c = '0'
    · subst hc
      have hz : letterBit '0' = 0 := by decide
      have hnl : ¬ (isFlagLetter '0' = true) := by decide
      rw [scanIgnored_cons_zero, ih acc ignore ha hrest, List.foldl_cons, hz, Nat.or_zero,
        List.countP_cons_of_neg _ _ hnl]
    · have hl : isFlagLetter c = true :=
        isFlagLetter_of_isFlagChar (hall c (List.mem_cons_self _ _)) hc
      rw [scanIgnored_cons_letter c rest _ ignore hl, clearBits_compl acc _ ha (letterBit_lt c),
        ih _ _ (Nat.or_lt_two_pow (n := 8) ha (letterBit_lt c)) hrest, List.foldl_cons,
        List.countP_cons_of_pos _ _ hl]
      congr 1
      omega

/-- The ignore loop from the initial state `ignored_flags = 0xff`, `ignore = 0`. -/
theorem scanIgnored_init (ig : List Char) (hig : ∀ c ∈ ig, isFlagChar c = true) :
    scanIgnored ig 0xff 0 = (0xff - orOfLetters ig, ig.countP isFlagLetter) := by
  have h := scanIgnored_flagChars ig 0 0 (by decide) hig
  have h0 : (0xff : Nat) ^^^ 0 = 0xff := by decide
  rw [h0] at h
  rw [h, Nat.zero_add]
  show (0xff ^^^ orOfLetters ig, _) = _
  rw [xor_255_eq_sub _ (orOfLetters_lt ig)]

/-! ## `DetectFlagsParse` on clauses -/

/-- On a clause whose flagset holds a `0`, with or without ignore part:
`required_flags` is 0 and `ignored_flags` stays `0xFF`. -/
theorem DetectFlagsParse_of_zero (text m fs : List Char) (g3 : Option (List Char))
    (hm : isModifierSlot m = true) (hfs : ∀ c ∈ fs, isFlagChar c = true) (h0 : '0' ∈ fs)
    (hexec : pcre_exec text = some ⟨groupOfSlot m, fs, g3⟩) :
    DetectFlagsParse text = some ⟨0, modifierOfSlot m, 0xff⟩ := by
  unfold DetectFlagsParse
  rw [hexec]
  simp only [scanFlags_zero fs hfs h0, parseModifier_groupOfSlot m hm]

/-- On a clause without ignore part whose flagset has no `0`. -/
theorem DetectFlagsParse_clauseText (w1 m w2 fs w3 : List Char)
    (hw1 : ∀ x ∈ w1, isSpace x = true) (hm : isModifierSlot m = true)
    (hw2 : ∀ x ∈ w2, isSpace x = true) (hne : fs ≠ [])
    (hfs : ∀ x ∈ fs, isFlagLetter x = true) (hw3 : ∀ x ∈ w3, isSpace x = true) :
    DetectFlagsParse (clauseText w1 m w2 fs w3) =
      some ⟨orOfLetters fs, modifierOfSlot m, 0xff⟩ := by
  have hexec := pcre_exec_clauseText w1 m w2 fs w3 hw1 hm hw2 hne
    (fun x hx => isFlagChar_of_isFlagLetter (hfs x hx)) hw3
  rw [DetectFlagsParse_of_captures _ fs (groupOfSlot m) hne hfs hexec,
    parseModifier_groupOfSlot m hm]

/-- On a clause with ignore part whose flagset has no `0`: the parse fails
when the ignore set has no letter other than `0`, and else clears the bits of
the ignore letters. -/
theorem DetectFlagsParse_clauseTextIgnore (w1 m w2 fs w3 w4 ig w5 : List Char)
    (hw1 : ∀ x ∈ w1, isSpace x = true) (hm : isModifierSlot m = true)
    (hw2 : ∀ x ∈ w2, isSpace x = true) (hne : fs ≠ [])
    (hfs : ∀ x ∈ fs, isFlagLetter x = true) (hw3 : ∀ x ∈ w3, isSpace x = true)
    (hw4 : ∀ x ∈ w4, isSpace x = true) (hine : ig ≠ [])
    (hig : ∀ x ∈ ig, isFlagChar x = true) (hw5 : ∀ x ∈ w5, isSpace x = true) :
    DetectFlagsParse (clauseTextIgnore w1 m w2 fs w3 w4 ig w5) =
      if ig.countP isFlagLetter = 0 then none
      else some ⟨orOfLetters fs, modifierOfSlot m, 0xff - orOfLetters ig⟩ := by
  have hexec := pcre_exec_clauseTextIgnore w1 m w2 fs w3 w4 ig w5 hw1 hm hw2 hne
    (fun x hx => isFlagChar_of_isFlagLetter (hfs x hx)) hw3 hw4 hine hig hw5
  have hlen : 0 + fs.length ≠ 0 := by
    have := List.length_pos.mpr hne
    omega
  unfold DetectFlagsParse
  rw [hexec]
  simp only [scanFlags_letters fs 0 0 (by decide) hfs, if_neg hlen, scanIgnored_init ig hig,
    parseModifier_groupOfSlot m hm]
  rfl


/-! ## The ignore clause -/

/-- Bit `i` of the stored `ignored_flags` is cleared exactly when some letter
of the ignore set stands for it. -/
theorem ignored_testBit_false_iff (ig : List Char) (i : Nat) (hi : i < 8) :
    (0xff - orOfLetters ig).testBit i = false ↔
      ∃ c ∈ ig, (letterBit c).testBit i = true := by
  rw [testBit_compl8 _ i (orOfLetters_lt ig)]
  unfold orOfLetters
  rw [foldl_or_testBit]
  simp [hi]

/-- C11: for a clause whose flagset has no `0` and whose ignore set holds at
least one of the letters `S A F R P U 1 2`, `DetectFlagsParse` succeeds; the
stored `ignored_flags` is `0xFF` with exactly the bits of the ignore letters
cleared (`0xFF - ignored_flags` is the OR of the bits of the ignore letters),
and the modifier and `required_flags` are those of the clause without the
ignore part. -/
theorem c11_ignore_clause_clears_letter_bits (w1 m w2 fs w3 w4 ig w5 : List Char)
    (hw1 : ∀ x ∈ w1, isSpace x = true) (hm : isModifierSlot m = true)
    (hw2 : ∀ x ∈ w2, isSpace x = true) (hne : fs ≠ [])
    (hfs : ∀ x ∈ fs, isFlagLetter x = true) (hw3 : ∀ x ∈ w3, isSpace x = true)
    (hw4 : ∀ x ∈ w4, isSpace x = true)
    (hig : ∀ x ∈ ig, isFlagChar x = true) (hw5 : ∀ x ∈ w5, isSpace x = true)
    (hletter : ∃ c ∈ ig, isFlagLetter c = true) :
    DetectFlagsParse (clauseTextIgnore w1 m w2 fs w3 w4 ig w5) =
      some ⟨orOfLetters fs, modifierOfSlot m, 0xff - orOfLetters ig⟩ ∧
    DetectFlagsParse (clauseText w1 m w2 fs w3) =
      some ⟨orOfLetters fs, modifierOfSlot m, 0xff⟩ ∧
    0xff - (0xff - orOfLetters ig) = orOfLetters ig ∧
    (∀ i, i < 8 → ((0xff - orOfLetters ig).testBit i = false ↔
      ∃ c ∈ ig, (letterBit c).testBit i = true)) := by
  obtain ⟨c, hc, hcl⟩ := hletter
  have hine : ig ≠ [] := List.ne_nil_of_mem hc
  have hcount : ig.countP isFlagLetter ≠ 0 := by
    intro h0
    exact (List.countP_eq_zero.mp h0) c hc hcl
  have hlt := orOfLetters_lt ig
  refine ⟨?_, DetectFlagsParse_clauseText w1 m w2 fs w3 hw1 hm hw2 hne hfs hw3, by omega,
    fun i hi => ignored_testBit_false_iff ig i hi⟩
  rw [DetectFlagsParse_clauseTextIgnore w1 m w2 fs w3 w4 ig w5 hw1 hm hw2 hne hfs hw3 hw4 hine
    hig hw5, if_neg hcount]

/-- Witness of C11 on `"+AP,UR"` (the text of `FlagsTestParse06`), read as
modifier `+`, flagset `AP`, ignore set `UR`, without white space. -/
theorem c11_ignore_clause_clears_letter_bits_witness :
    clauseTextIgnore [] ['+'] [] ['A', 'P'] [] [] ['U', 'R'] [] = "+AP,UR".toList ∧
    DetectFlagsParse (clauseTextIgnore [] ['+'] [] ['A', 'P'] [] [] ['U', 'R'] []) =
      some ⟨orOfLetters ['A', 'P'], modifierOfSlot ['+'], 0xff - orOfLetters ['U', 'R']⟩ ∧
    orOfLetters ['A', 'P'] = TH_ACK ||| TH_PUSH ∧ modifierOfSlot ['+'] = MODIFIER_PLUS ∧
    0xff - (0xff - orOfLetters ['U', 'R']) = TH_URG ||| TH_RST :=
  ⟨by decide,
   (c11_ignore_clause_clears_letter_bits [] ['+'] [] ['A', 'P'] [] [] ['U', 'R'] []
      (by decide) (by decide) (by decide) (by decide) (by decide) (by decide) (by decide)
      (by decide) (by decide) ⟨'U', by decide, by decide⟩).1,
   by decide, by decide, by decide⟩

/-! ## The zero-flags sentinel -/

/-- C12: for a clause whose flagset holds the character `0` at any position,
with or without ignore part, `DetectFlagsParse` succeeds with
`required_flags = 0` (the letters before the `0` are discarded, those after it
are never read) and with the modifier of the prefix. -/
theorem c12_zero_in_flagset_gives_zero_flags (w1 m w2 fs w3 : List Char)
    (hw1 : ∀ x ∈ w1, isSpace x = true) (hm : isModifierSlot m = true)
    (hw2 : ∀ x ∈ w2, isSpace x = true)
    (hfs : ∀ x ∈ fs, isFlagChar x = true) (hw3 : ∀ x ∈ w3, isSpace x = true)
    (hzero : '0' ∈ fs) :
    DetectFlagsParse (clauseText w1 m w2 fs w3) = some ⟨0, modifierOfSlot m, 0xff⟩ ∧
    (∀ w4 ig w5 : List Char, (∀ x ∈ w4, isSpace x = true) → ig ≠ [] →
      (∀ x ∈ ig, isFlagChar x = true) → (∀ x ∈ w5, isSpace x = true) →
      DetectFlagsParse (clauseTextIgnore w1 m w2 fs w3 w4 ig w5) =
        some ⟨0, modifierOfSlot m, 0xff⟩) := by
  have hne : fs ≠ [] := List.ne_nil_of_mem hzero
  refine ⟨?_, fun w4 ig w5 hw4 hine hig hw5 => ?_⟩
  · exact DetectFlagsParse_of_zero _ m fs none hm hfs hzero
      (pcre_exec_clauseText w1 m w2 fs w3 hw1 hm hw2 hne hfs hw3)
  · exact DetectFlagsParse_of_zero _ m fs (some ig) hm hfs hzero
      (pcre_exec_clauseTextIgnore w1 m w2 fs w3 w4 ig w5 hw1 hm hw2 hne hfs hw3 hw4 hine hig hw5)

/-- Witness of C12 on `"+A0P"`; `"0"`, `"S0"` and `"0S"` give
`required_flags = 0` as well. -/
theorem c12_zero_in_flagset_gives_zero_flags_witness :
    clauseText [] ['+'] [] ['A', '0', 'P'] [] = "+A0P".toList ∧
    DetectFlagsParse (clauseText [] ['+'] [] ['A', '0', 'P'] []) =
      some ⟨0, modifierOfSlot ['+'], 0xff⟩ ∧
    modifierOfSlot ['+'] = MODIFIER_PLUS ∧
    DetectFlagsParse "0".toList = some ⟨0, 0, 0xff⟩ ∧
    DetectFlagsParse "S0".toList = some ⟨0, 0, 0xff⟩ ∧
    DetectFlagsParse "0S".toList = some ⟨0, 0, 0xff⟩ :=
  ⟨by decide,
   (c12_zero_in_flagset_gives_zero_flags [] ['+'] [] ['A', '0', 'P'] []
      (by decide) (by decide) (by decide) (by decide) (by decide) (by decide)).1,
   by decide, by decide, by decide, by decide⟩

/-! ## Characters outside the alphabet -/

theorem dropWhile_head_not (p : Char → Bool) (l : List Char) (b : Char) (t : List Char)
    (h : l.dropWhile p = b :: t) : p b = false := by
  induction l with
  | nil => simp at h
  | cons c r ih =>
    by_cases hc : p c = true
    · rw [List.dropWhile_cons_of_pos hc] at h
      exact ih h
    · rw [List.dropWhile_cons_of_neg hc] at h
      simp only [List.cons.injEq] at h
      rw [← h.1]
      simpa using hc

/-- C13: a character outside `S A P R F U 1 2 0` anywhere in the flagset
segment makes `DetectFlagsParse` fail. The flagset segment `seg` is the run of
characters, none of them white space or a comma, that follows the white space
and the modifier slot; with an empty modifier slot its first character is not
a modifier character (it would be the modifier). Whatever follows the segment,
no descriptor is returned. -/
theorem c13_invalid_character_in_flagset_fails (w1 m w2 seg rest : List Char)
    (hw1 : ∀ x ∈ w1, isSpace x = true) (hm : isModifierSlot m = true)
    (hw2 : ∀ x ∈ w2, isSpace x = true)
    (hseg : ∀ x ∈ seg, isSpace x = false ∧ x ≠ ',')
    (hhead : m = [] → ∀ c r, seg = c :: r → isModifierChar c = false)
    (hbad : ∃ x ∈ seg, isFlagChar x = false) :
    DetectFlagsParse (w1 ++ m ++ w2 ++ seg ++ rest) = none := by
  have hexec : pcre_exec (w1 ++ m ++ w2 ++ seg ++ rest) = none := by
    obtain ⟨x, hx, hxbad⟩ := hbad
    obtain ⟨c, r, rfl⟩ := List.exists_cons_of_ne_nil (List.ne_nil_of_mem hx)
    have hc := hseg c (List.mem_cons_self _ _)
    -- the first character of the segment that is outside the alphabet
    have hd : (c :: r).dropWhile isFlagChar ≠ [] := by
      intro hnil
      have := List.dropWhile_eq_nil_iff.mp hnil x hx
      rw [hxbad] at this
      exact Bool.false_ne_true this
    obtain ⟨b, d, hbd⟩ := List.exists_cons_of_ne_nil hd
    have hbflag : isFlagChar b = false := dropWhile_head_not isFlagChar _ b d hbd
    have hsplit : c :: r = (c :: r).takeWhile isFlagChar ++ b :: d := by
      rw [← hbd, List.takeWhile_append_dropWhile]
    have hbmem : b ∈ c :: r := by
      rw [hsplit]
      exact List.mem_append_right _ (List.mem_cons_self _ _)
    have hb := hseg b hbmem
    have hdrop : (c :: (r ++ rest)).dropWhile isFlagChar = b :: (d ++ rest) := by
      rw [← List.cons_append, hsplit, List.append_assoc,
        List.dropWhile_append_of_pos mem_takeWhile_isFlagChar, List.cons_append,
        List.dropWhile_cons_of_neg (by simp [hbflag])]
    rw [List.append_assoc, List.cons_append,
      pcre_exec_of_prefix w1 m w2 c (r ++ rest) hw1 hm hw2 hc.1 (fun h => hhead h c r rfl),
      hdrop, List.dropWhile_cons_of_neg (by simp [hb.1])]
    simp [matchIgnorePart, hb.2]
  unfold DetectFlagsParse
  rw [hexec]

/-- Witness of C13 on `"AGP"`; `"G"` (the text of `FlagsTestParse02`), `"SG"`
and `"GS"` fail as well. -/
theorem c13_invalid_character_in_flagset_fails_witness :
    ([] : List Char) ++ [] ++ [] ++ ['A', 'G', 'P'] ++ [] = "AGP".toList ∧
    DetectFlagsParse (([] : List Char) ++ [] ++ [] ++ ['A', 'G', 'P'] ++ []) = none ∧
    DetectFlagsParse "G".toList = none ∧ DetectFlagsParse "SG".toList = none ∧
    DetectFlagsParse "GS".toList = none :=
  ⟨by decide,
   c13_invalid_character_in_flagset_fails [] [] [] ['A', 'G', 'P'] []
     (by decide) (by decide) (by decide) (by decide)
     (fun _ c r h => by
        simp only [List.cons.injEq] at h
        rw [← h.1]; decide)
     ⟨'G', by decide, by decide⟩,
   by decide, by decide, by decide⟩

/-! ## An ignore clause without a letter -/

theorem foldl_or_filter_zero (ig : List Char) :
    ∀ acc, (ig.filter (fun c => c != '0')).foldl (fun a c => a ||| letterBit c) acc =
      ig.foldl (fun a c => a ||| letterBit c) acc := by
  induction ig with
  | nil => intro acc; rfl
  | cons c rest ih =>
    intro acc
    by_cases hc : c = '0'
    · subst hc
      have hz : letterBit '0' = 0 := by decide
      simp only [List.foldl_cons, hz, Nat.or_zero]
      rw [← ih acc]
      rfl
    · have hf : (c :: rest).filter (fun c => c != '0') =
          c :: rest.filter (fun c => c != '0') := by
        simp [List.filter_cons, hc]
      rw [hf, List.foldl_cons, List.foldl_cons, ih]

/-- C15: an ignore clause without a recognised letter is a parse error. For a
clause whose flagset has no `0`: when the ignore set consists of `0`
characters only, `DetectFlagsParse` fails and returns no descriptor; when it
mixes `0` with at least one letter, `DetectFlagsParse` succeeds and the `0`
clears nothing (the stored mask is that of the ignore set without its `0`s). -/
theorem c15_ignore_clause_of_zeros_fails (w1 m w2 fs w3 w4 ig w5 : List Char)
    (hw1 : ∀ x ∈ w1, isSpace x = true) (hm : isModifierSlot m = true)
    (hw2 : ∀ x ∈ w2, isSpace x = true) (hne : fs ≠ [])
    (hfs : ∀ x ∈ fs, isFlagLetter x = true) (hw3 : ∀ x ∈ w3, isSpace x = true)
    (hw4 : ∀ x ∈ w4, isSpace x = true) (hine : ig ≠ [])
    (hig : ∀ x ∈ ig, isFlagChar x = true) (hw5 : ∀ x ∈ w5, isSpace x = true) :
    ((∀ c ∈ ig, c = '0') →
      DetectFlagsParse (clauseTextIgnore w1 m w2 fs w3 w4 ig w5) = none) ∧
    ((∃ c ∈ ig, c ≠ '0') →
      DetectFlagsParse (clauseTextIgnore w1 m w2 fs w3 w4 ig w5) =
        some ⟨orOfLetters fs, modifierOfSlot m,
          0xff - orOfLetters (ig.filter (fun c => c != '0'))⟩) := by
  have hparse := DetectFlagsParse_clauseTextIgnore w1 m w2 fs w3 w4 ig w5 hw1 hm hw2 hne hfs
    hw3 hw4 hine hig hw5
  constructor
  · intro hzeros
    have hcount : ig.countP isFlagLetter = 0 := by
      apply List.countP_eq_zero.mpr
      intro c hc
      rw [hzeros c hc]
      decide
    rw [hparse, if_pos hcount]
  · rintro ⟨c, hc, hc0⟩
    have hcount : ig.countP isFlagLetter ≠ 0 := by
      intro h0
      exact (List.countP_eq_zero.mp h0) c hc (isFlagLetter_of_isFlagChar (hig c hc) hc0)
    have hfilter : orOfLetters (ig.filter (fun c => c != '0')) = orOfLetters ig :=
      foldl_or_filter_zero ig 0
    rw [hparse, if_neg hcount, hfilter]

/-- Witness of C15 on `"S,0"` (fails) and `"S,0R"` (succeeds, only RST is
ignored); `"+AP,00"` fails as well. -/
theorem c15_ignore_clause_of_zeros_fails_witness :
    clauseTextIgnore [] [] [] ['S'] [] [] ['0'] [] = "S,0".toList ∧
    DetectFlagsParse (clauseTextIgnore [] [] [] ['S'] [] [] ['0'] []) = none ∧
    clauseTextIgnore [] [] [] ['S'] [] [] ['0', 'R'] [] = "S,0R".toList ∧
    DetectFlagsParse (clauseTextIgnore [] [] [] ['S'] [] [] ['0', 'R'] []) =
      some ⟨orOfLetters ['S'], modifierOfSlot [],
        0xff - orOfLetters (['0', 'R'].filter (fun c => c != '0'))⟩ ∧
    0xff - orOfLetters (['0', 'R'].filter (fun c => c != '0')) = 0xff - TH_RST ∧
    DetectFlagsParse "+AP,00".toList = none :=
  ⟨by decide,
   (c15_ignore_clause_of_zeros_fails [] [] [] ['S'] [] [] ['0'] []
      (by decide) (by decide) (by decide) (by decide) (by decide) (by decide) (by decide)
      (by decide) (by decide) (by decide)).1 (by decide),
   by decide,
   (c15_ignore_clause_of_zeros_fails [] [] [] ['S'] [] [] ['0', 'R'] []
      (by decide) (by decide) (by decide) (by decide) (by decide) (by decide) (by decide)
      (by decide) (by decide) (by decide)).2 ⟨'R', by decide, by decide⟩,
   by decide, by decide⟩

/-! ## Lower-case letters -/

/-- C16 on the code: the grammar is compiled without `PCRE_CASELESS`, so a
lower-case letter never reaches the loops. `"s"` and `"+ap,sr"` are rejected
although `"S"` and `"+AP,SR"` are accepted, and although the flagset loop and
the ignore loop, run on the lower-case letters, give the bits of the upper-case
ones. -/
theorem c16_lowercase_is_rejected_by_the_grammar :
    DetectFlagsParse "s".toList = none ∧
    DetectFlagsParse "S".toList = some ⟨TH_SYN, 0, 0xff⟩ ∧
    DetectFlagsParse "+ap,sr".toList = none ∧
    DetectFlagsParse "+AP,SR".toList =
      some ⟨TH_ACK ||| TH_PUSH, MODIFIER_PLUS, 0xff - (TH_SYN ||| TH_RST)⟩ ∧
    pcre_exec "s".toList = none ∧
    scanFlags "s".toList 0 0 = scanFlags "S".toList 0 0 ∧
    scanFlags "ap".toList 0 0 = scanFlags "AP".toList 0 0 ∧
    scanIgnored "sr".toList 0xff 0 = scanIgnored "SR".toList 0xff 0 := by
  decide


/-! ## White space around a clause -/

theorem dropWhile_isSpace_append_of_nil (x w : List Char)
    (hw : ∀ c ∈ w, isSpace c = true) (h : x.dropWhile isSpace = []) :
    (x ++ w).dropWhile isSpace = [] := by
  apply List.dropWhile_eq_nil_iff.mpr
  intro c hc
  rcases List.mem_append.mp hc with hx | hx
  · exact List.dropWhile_eq_nil_iff.mp h c hx
  · exact hw c hx

theorem dropWhile_isSpace_append_of_ne_nil (x w : List Char)
    (h : x.dropWhile isSpace ≠ []) :
    (x ++ w).dropWhile isSpace = x.dropWhile isSpace ++ w := by
  induction x with
  | nil => exact absurd rfl h
  | cons c r ih =>
    by_cases hc : isSpace c = true
    · rw [List.dropWhile_cons_of_pos hc] at h
      rw [List.cons_append, List.dropWhile_cons_of_pos hc, List.dropWhile_cons_of_pos hc]
      exact ih h
    · rw [List.cons_append, List.dropWhile_cons_of_neg hc, List.dropWhile_cons_of_neg hc,
        List.cons_append]

theorem takeWhile_isFlagChar_of_spaces (w : List Char) (hw : ∀ c ∈ w, isSpace c = true) :
    w.takeWhile isFlagChar = [] := by
  cases w with
  | nil => rfl
  | cons t ts => simp [not_isFlagChar_of_isSpace (hw t (List.mem_cons_self _ _))]

theorem dropWhile_isFlagChar_of_spaces (w : List Char) (hw : ∀ c ∈ w, isSpace c = true) :
    w.dropWhile isFlagChar = w := by
  cases w with
  | nil => rfl
  | cons t ts => simp [not_isFlagChar_of_isSpace (hw t (List.mem_cons_self _ _))]

theorem takeWhile_isFlagChar_append_spaces (x w : List Char)
    (hw : ∀ c ∈ w, isSpace c = true) :
    (x ++ w).takeWhile isFlagChar = x.takeWhile isFlagChar := by
  induction x with
  | nil => simpa using takeWhile_isFlagChar_of_spaces w hw
  | cons c r ih =>
    by_cases hc : isFlagChar c = true
    · rw [List.cons_append, List.takeWhile_cons_of_pos hc, List.takeWhile_cons_of_pos hc, ih]
    · rw [List.cons_append, List.takeWhile_cons_of_neg hc, List.takeWhile_cons_of_neg hc]

theorem dropWhile_isFlagChar_append_spaces (x w : List Char)
    (hw : ∀ c ∈ w, isSpace c = true) :
    (x ++ w).dropWhile isFlagChar = x.dropWhile isFlagChar ++ w := by
  induction x with
  | nil => simpa using dropWhile_isFlagChar_of_spaces w hw
  | cons c r ih =>
    by_cases hc : isFlagChar c = true
    · rw [List.cons_append, List.dropWhile_cons_of_pos hc, List.dropWhile_cons_of_pos hc, ih]
    · rw [List.cons_append, List.dropWhile_cons_of_neg hc, List.dropWhile_cons_of_neg hc,
        List.cons_append]

theorem takeModifier_append (x w : List Char) (h : x ≠ []) :
    takeModifier (x ++ w) = ((takeModifier x).1, (takeModifier x).2 ++ w) := by
  obtain ⟨c, r, rfl⟩ := List.exists_cons_of_ne_nil h
  by_cases hc : isModifierChar c = true <;> simp [takeModifier, hc]

/-- Trailing white space does not change the match of the ignore piece on a
text that is not empty. -/
theorem matchIgnorePart_append_spaces (x w : List Char)
    (hw : ∀ c ∈ w, isSpace c = true) (h : x ≠ []) :
    matchIgnorePart (x ++ w) = matchIgnorePart x := by
  obtain ⟨c, r, rfl⟩ := List.exists_cons_of_ne_nil h
  by_cases hc : c = ','
  · subst hc
    by_cases h6 : r.dropWhile isSpace = []
    · simp [matchIgnorePart, h6, dropWhile_isSpace_append_of_nil r w hw h6]
    · have e6 := dropWhile_isSpace_append_of_ne_nil r w h6
      have e7 := takeWhile_isFlagChar_append_spaces (r.dropWhile isSpace) w hw
      have e8 := dropWhile_isFlagChar_append_spaces (r.dropWhile isSpace) w hw
      by_cases h9 : ((r.dropWhile isSpace).dropWhile isFlagChar).dropWhile isSpace = []
      · have e9 := dropWhile_isSpace_append_of_nil _ w hw h9
        simp only [List.cons_append, matchIgnorePart, e6, e7, e8, e9, h9]
      · have e9 := dropWhile_isSpace_append_of_ne_nil _ w h9
        have hne : ((r.dropWhile isSpace).dropWhile isFlagChar).dropWhile isSpace ++ w ≠ [] := by
          intro hnil
          exact h9 (List.append_eq_nil.mp hnil).1
        simp only [List.cons_append, matchIgnorePart, e6, e7, e8, e9, h9, hne]
  · simp [matchIgnorePart, hc]

/-- White space in front of a text does not change the match of the grammar. -/
theorem pcre_exec_spaces_append (w x : List Char) (hw : ∀ c ∈ w, isSpace c = true) :
    pcre_exec (w ++ x) = pcre_exec x := by
  simp only [pcre_exec, List.dropWhile_append_of_pos hw]

/-- White space behind a text does not change the match of the grammar. -/
theorem pcre_exec_append_spaces (x w : List Char) (hw : ∀ c ∈ w, isSpace c = true) :
    pcre_exec (x ++ w) = pcre_exec x := by
  by_cases h1 : x.dropWhile isSpace = []
  · have e1 := dropWhile_isSpace_append_of_nil x w hw h1
    simp only [pcre_exec, e1, h1]
  · have e1 := dropWhile_isSpace_append_of_ne_nil x w h1
    have e2 := takeModifier_append (x.dropWhile isSpace) w h1
    by_cases h3 : ((takeModifier (x.dropWhile isSpace)).2).dropWhile isSpace = []
    · have e3 := dropWhile_isSpace_append_of_nil _ w hw h3
      simp only [pcre_exec, e1, e2, e3, h3]
    · have e3 := dropWhile_isSpace_append_of_ne_nil _ w h3
      have e4 := takeWhile_isFlagChar_append_spaces
        (((takeModifier (x.dropWhile isSpace)).2).dropWhile isSpace) w hw
      have e5 := dropWhile_isFlagChar_append_spaces
        (((takeModifier (x.dropWhile isSpace)).2).dropWhile isSpace) w hw
      by_cases h6 : ((((takeModifier (x.dropWhile isSpace)).2).dropWhile isSpace).dropWhile
          isFlagChar).dropWhile isSpace = []
      · have e6 := dropWhile_isSpace_append_of_nil _ w hw h6
        simp only [pcre_exec, e1, e2, e3, e4, e5, e6, h6]
      · have e6 := dropWhile_isSpace_append_of_ne_nil _ w h6
        have e7 := matchIgnorePart_append_spaces _ w hw h6
        simp only [pcre_exec, e1, e2, e3, e4, e5, e6, e7]

/-- C17: surrounding white space is insignificant. For every text `t` and all
runs `w1`, `w2` of white space (characters of the class `\s`),
`DetectFlagsParse` gives the same result on `w1 ++ t ++ w2` as on `t`: it
fails on the one exactly when it fails on the other, and on success the
modifier, `required_flags` and `ignored_flags` are the same. -/
theorem c17_surrounding_whitespace_insignificant (t w1 w2 : List Char)
    (hw1 : ∀ c ∈ w1, isSpace c = true) (hw2 : ∀ c ∈ w2, isSpace c = true) :
    DetectFlagsParse (w1 ++ t ++ w2) = DetectFlagsParse t ∧
    (DetectFlagsParse (w1 ++ t ++ w2) = none ↔ DetectFlagsParse t = none) := by
  have hexec : pcre_exec (w1 ++ t ++ w2) = pcre_exec t := by
    rw [List.append_assoc, pcre_exec_spaces_append w1 _ hw1, pcre_exec_append_spaces t w2 hw2]
  have h : DetectFlagsParse (w1 ++ t ++ w2) = DetectFlagsParse t := by
    unfold DetectFlagsParse
    rw [hexec]
  exact ⟨h, by rw [h]⟩

/-- Witness of C17 on `"+AP,SR"` between a blank with a tab and a newline, and
on the text `"G"`, which fails with and without the white space. -/
theorem c17_surrounding_whitespace_insignificant_witness :
    DetectFlagsParse (" \t".toList ++ "+AP,SR".toList ++ "\n".toList) =
      DetectFlagsParse "+AP,SR".toList ∧
    DetectFlagsParse "+AP,SR".toList =
      some ⟨TH_ACK ||| TH_PUSH, MODIFIER_PLUS, 0xff - (TH_SYN ||| TH_RST)⟩ ∧
    (DetectFlagsParse (" ".toList ++ "G".toList ++ " ".toList) = none ↔
      DetectFlagsParse "G".toList = none) :=
  ⟨(c17_surrounding_whitespace_insignificant "+AP,SR".toList " \t".toList "\n".toList
      (by decide) (by decide)).1,
   by decide,
   (c17_surrounding_whitespace_insignificant "G".toList " ".toList " ".toList
      (by decide) (by decide)).2⟩


/-! ## A `0` in the flagset and the ignore clause -/

/-- C21: a `0` in the flagset makes `DetectFlagsParse` return before the
ignore clause is read. For a clause whose flagset holds a `0`, the flagset
loop leaves through `return de`; whatever the ignore set lists, the result is
that of the clause without the ignore part, with `ignored_flags = 0xFF`; the
clause is accepted also when its ignore set consists of `0` characters only,
although the same ignore set after a flagset without `0` is rejected. -/
theorem c21_zero_in_flagset_skips_ignore_clause (w1 m w2 fs w3 w4 ig w5 : List Char)
    (hw1 : ∀ x ∈ w1, isSpace x = true) (hm : isModifierSlot m = true)
    (hw2 : ∀ x ∈ w2, isSpace x = true)
    (hfs : ∀ x ∈ fs, isFlagChar x = true) (hw3 : ∀ x ∈ w3, isSpace x = true)
    (hw4 : ∀ x ∈ w4, isSpace x = true) (hine : ig ≠ [])
    (hig : ∀ x ∈ ig, isFlagChar x = true) (hw5 : ∀ x ∈ w5, isSpace x = true)
    (hzero : '0' ∈ fs) :
    scanFlags fs 0 0 = FlagScan.returned ∧
    DetectFlagsParse (clauseTextIgnore w1 m w2 fs w3 w4 ig w5) =
      DetectFlagsParse (clauseText w1 m w2 fs w3) ∧
    (∃ de, DetectFlagsParse (clauseTextIgnore w1 m w2 fs w3 w4 ig w5) = some de ∧
      de.ignored_flags = 0xff) ∧
    (∀ fs' : List Char, fs' ≠ [] → (∀ x ∈ fs', isFlagLetter x = true) →
      (∀ c ∈ ig, c = '0') →
      DetectFlagsParse (clauseTextIgnore w1 m w2 fs' w3 w4 ig w5) = none) := by
  have hne : fs ≠ [] := List.ne_nil_of_mem hzero
  have hwith : DetectFlagsParse (clauseTextIgnore w1 m w2 fs w3 w4 ig w5) =
      some ⟨0, modifierOfSlot m, 0xff⟩ :=
    DetectFlagsParse_of_zero _ m fs (some ig) hm hfs hzero
      (pcre_exec_clauseTextIgnore w1 m w2 fs w3 w4 ig w5 hw1 hm hw2 hne hfs hw3 hw4 hine hig hw5)
  have hwithout : DetectFlagsParse (clauseText w1 m w2 fs w3) =
      some ⟨0, modifierOfSlot m, 0xff⟩ :=
    DetectFlagsParse_of_zero _ m fs none hm hfs hzero
      (pcre_exec_clauseText w1 m w2 fs w3 hw1 hm hw2 hne hfs hw3)
  refine ⟨scanFlags_zero fs hfs hzero 0 0, by rw [hwith, hwithout],
    ⟨_, hwith, rfl⟩, fun fs' hne' hfs' hzeros => ?_⟩
  have hcount : ig.countP isFlagLetter = 0 := by
    apply List.countP_eq_zero.mpr
    intro c hc
    rw [hzeros c hc]
    decide
  rw [DetectFlagsParse_clauseTextIgnore w1 m w2 fs' w3 w4 ig w5 hw1 hm hw2 hne' hfs' hw3 hw4
    hine hig hw5, if_pos hcount]

/-- Witness of C21 on `"0,SR"` (nothing is ignored) and on `"0,0"` (accepted),
next to `"S,0"` (rejected). -/
theorem c21_zero_in_flagset_skips_ignore_clause_witness :
    clauseTextIgnore [] [] [] ['0'] [] [] ['S', 'R'] [] = "0,SR".toList ∧
    (∃ de, DetectFlagsParse (clauseTextIgnore [] [] [] ['0'] [] [] ['S', 'R'] []) = some de ∧
      de.ignored_flags = 0xff) ∧
    clauseTextIgnore [] [] [] ['0'] [] [] ['0'] [] = "0,0".toList ∧
    (∃ de, DetectFlagsParse (clauseTextIgnore [] [] [] ['0'] [] [] ['0'] []) = some de ∧
      de.ignored_flags = 0xff) ∧
    clauseTextIgnore [] [] [] ['S'] [] [] ['0'] [] = "S,0".toList ∧
    DetectFlagsParse (clauseTextIgnore [] [] [] ['S'] [] [] ['0'] []) = none :=
  ⟨by decide,
   (c21_zero_in_flagset_skips_ignore_clause [] [] [] ['0'] [] [] ['S', 'R'] []
      (by decide) (by decide) (by decide) (by decide) (by decide) (by decide) (by decide)
      (by decide) (by decide) (by decide)).2.2.1,
   by decide,
   (c21_zero_in_flagset_skips_ignore_clause [] [] [] ['0'] [] [] ['0'] []
      (by decide) (by decide) (by decide) (by decide) (by decide) (by decide) (by decide)
      (by decide) (by decide) (by decide)).2.2.1,
   by decide,
   (c21_zero_in_flagset_skips_ignore_clause [] [] [] ['0'] [] [] ['0'] []
      (by decide) (by decide) (by decide) (by decide) (by decide) (by decide) (by decide)
      (by decide) (by decide) (by decide)).2.2.2 ['S'] (by decide) (by decide) (by decide)⟩


/-! ## The empty-flagset check -/

theorem isFlagChar_cases {c : Char} (h : isFlagChar c = true) :
    c = 'S' ∨ c = 'A' ∨ c = 'P' ∨ c = 'R' ∨ c = 'F' ∨ c = 'U' ∨ c = '1' ∨ c = '2' ∨
      c = '0' := by
  simpa [isFlagChar, or_assoc] using h

/-- On a run over the alphabet of the grammar the flagset loop never reaches
its `default:` branch. -/
theorem scanFlagsTakesDefault_of_flagChars (fs : List Char) :
    (∀ c ∈ fs, isFlagChar c = true) → scanFlagsTakesDefault fs = false := by
  induction fs with
  | nil => intro _; rfl
  | cons c rest ih =>
    intro hall
    have hrest := ih (fun x hx => hall x (List.mem_cons_of_mem _ hx))
    rcases isFlagChar_cases (hall c (List.mem_cons_self _ _)) with
      rfl | rfl | rfl | rfl | rfl | rfl | rfl | rfl | rfl <;>
      simp [scanFlagsTakesDefault, hrest]

/-- How the flagset loop ends on a non-empty run over the alphabet: through
`return de` when the run holds a `0`, else at the end of the string with one
count per character. -/
theorem scanFlags_of_flagChars (fs : List Char) (hne : fs ≠ [])
    (hfs : ∀ c ∈ fs, isFlagChar c = true) :
    ('0' ∈ fs ∧ scanFlags fs 0 0 = FlagScan.returned) ∨
    ('0' ∉ fs ∧ scanFlags fs 0 0 = FlagScan.finished (orOfLetters fs) fs.length ∧
      0 < fs.length) := by
  by_cases h0 : '0' ∈ fs
  · exact Or.inl ⟨h0, scanFlags_zero fs hfs h0 0 0⟩
  · right
    have hletters : ∀ c ∈ fs, isFlagLetter c = true := fun c hc =>
      isFlagLetter_of_isFlagChar (hfs c hc) (fun h => h0 (h ▸ hc))
    refine ⟨h0, ?_, List.length_pos.mpr hne⟩
    rw [scanFlags_letters fs 0 0 (by decide) hletters, Nat.zero_add]
    rfl

/-- The groups of a successful match are non-empty runs over the alphabet. -/
theorem pcre_exec_groups (text : List Char) (cap : Captures)
    (h : pcre_exec text = some cap) :
    cap.group2 ≠ [] ∧ (∀ c ∈ cap.group2, isFlagChar c = true) ∧
    (∀ ig, cap.group3 = some ig → ig ≠ [] ∧ ∀ c ∈ ig, isFlagChar c = true) := by
  obtain ⟨w1, m, w2, w3, _, _, _, hne, hfs, _, _, hshape⟩ := pcre_exec_sound text cap h
  refine ⟨hne, hfs, fun ig hig => ?_⟩
  rcases hshape with ⟨_, hnone⟩ | ⟨w4, ig', w5, _, hine, higf, _, _, hsome⟩
  · rw [hnone] at hig
    exact absurd hig (by simp)
  · rw [hsome] at hig
    simp only [Option.some.injEq] at hig
    subst hig
    exact ⟨hine, higf⟩

/-- An ignore set over the alphabet has no letter other than `0` exactly when
the ignore loop ends with `ignore == 0`. -/
theorem countP_isFlagLetter_eq_zero_iff (ig : List Char)
    (hig : ∀ c ∈ ig, isFlagChar c = true) :
    ig.countP isFlagLetter = 0 ↔ ∀ c ∈ ig, c = '0' := by
  rw [List.countP_eq_zero]
  constructor
  · intro h c hc
    by_contra hne
    exact h c hc (isFlagLetter_of_isFlagChar (hig c hc) hne)
  · intro h c hc
    rw [h c hc]
    decide

/-- The result of `DetectFlagsParse` on a text the grammar matches fails exactly
when the flagset has no `0` and there is an ignore set without a letter other
than `0`. -/
theorem DetectFlagsParse_eq_none_of_exec (text : List Char) (cap : Captures)
    (h : pcre_exec text = some cap) :
    DetectFlagsParse text = none ↔
      ('0' ∉ cap.group2 ∧ ∃ ig, cap.group3 = some ig ∧ ∀ c ∈ ig, c = '0') := by
  obtain ⟨hne, hfs, hg3⟩ := pcre_exec_groups text cap h
  rcases scanFlags_of_flagChars cap.group2 hne hfs with ⟨h0, hscan⟩ | ⟨h0, hscan, hpos⟩
  · have hsome : DetectFlagsParse text ≠ none := by
      unfold DetectFlagsParse
      rw [h]
      simp only [hscan]
      simp
    exact ⟨fun hn => absurd hn hsome, fun hc => absurd h0 hc.1⟩
  · have hlen : cap.group2.length ≠ 0 := by omega
    cases hcap3 : cap.group3 with
    | none =>
      have hsome : DetectFlagsParse text ≠ none := by
        unfold DetectFlagsParse
        rw [h]
        simp only [hscan, if_neg hlen, hcap3]
        simp
      exact ⟨fun hn => absurd hn hsome, fun hc => by
        obtain ⟨_, ig, hig, _⟩ := hc
        exact absurd hig (by simp)⟩
    | some ig =>
      obtain ⟨_, higf⟩ := hg3 ig hcap3
      have hparse : DetectFlagsParse text =
          if ig.countP isFlagLetter = 0 then none
          else some ⟨orOfLetters cap.group2, parseModifier (cap.group1.getD []) 0,
            0xff - orOfLetters ig⟩ := by
        unfold DetectFlagsParse
        rw [h]
        simp only [hscan, if_neg hlen, hcap3, scanIgnored_init ig higf]
      rw [hparse]
      constructor
      · intro hn
        have hcount : ig.countP isFlagLetter = 0 := by
          by_contra hc
          rw [if_neg hc] at hn
          exact absurd hn (by simp)
        exact ⟨h0, ig, rfl, (countP_isFlagLetter_eq_zero_iff ig higf).mp hcount⟩
      · rintro ⟨_, ig', hig', hz⟩
        simp only [Option.some.injEq] at hig'
        subst hig'
        rw [if_pos ((countP_isFlagLetter_eq_zero_iff _ higf).mpr hz)]

/-- C22: the empty-flagset check is unreachable. On a text that the anchored
grammar accepts, the flagset loop of `DetectFlagsParse`, run on group 2, never
takes its `default:` branch and either returns at a `0` or ends with
`found > 0`, so the `found == 0` exit is not taken. `DetectFlagsParse` fails
exactly when the grammar does not match, or the flagset has no `0` and the
ignore clause has no letter other than `0`. -/
theorem c22_found_zero_exit_unreachable (text : List Char) :
    (IsClause text →
      ∃ cap, pcre_exec text = some cap ∧ scanFlagsTakesDefault cap.group2 = false ∧
        (scanFlags cap.group2 0 0 = FlagScan.returned ∨
         ∃ flags found, scanFlags cap.group2 0 0 = FlagScan.finished flags found ∧
           0 < found) ∧
        (∀ flags, scanFlags cap.group2 0 0 ≠ FlagScan.finished flags 0)) ∧
    (DetectFlagsParse text = none ↔
      (¬ IsClause text ∨
       ∃ cap, pcre_exec text = some cap ∧ '0' ∉ cap.group2 ∧
         ∃ ig, cap.group3 = some ig ∧ ∀ c ∈ ig, c = '0')) := by
  constructor
  · intro hclause
    obtain ⟨cap, hcap⟩ := Option.isSome_iff_exists.mp ((isClause_iff_pcre_exec text).mp hclause)
    obtain ⟨hne, hfs, _⟩ := pcre_exec_groups text cap hcap
    refine ⟨cap, hcap, scanFlagsTakesDefault_of_flagChars _ hfs, ?_, ?_⟩
    · rcases scanFlags_of_flagChars cap.group2 hne hfs with ⟨_, hscan⟩ | ⟨_, hscan, hpos⟩
      · exact Or.inl hscan
      · exact Or.inr ⟨_, _, hscan, hpos⟩
    · intro flags hflags
      rcases scanFlags_of_flagChars cap.group2 hne hfs with ⟨_, hscan⟩ | ⟨_, hscan, hpos⟩
      · rw [hscan] at hflags
        exact absurd hflags (by simp)
      · rw [hscan] at hflags
        simp only [FlagScan.finished.injEq] at hflags
        omega
  · cases hexec : pcre_exec text with
    | none =>
      have hnot : ¬ IsClause text := by
        intro hc
        have := (isClause_iff_pcre_exec text).mp hc
        rw [hexec] at this
        exact absurd this (by simp)
      have hparse : DetectFlagsParse text = none := by
        unfold DetectFlagsParse
        rw [hexec]
      exact ⟨fun _ => Or.inl hnot, fun _ => hparse⟩
    | some cap =>
      have hclause : IsClause text := isClause_of_pcre_exec text cap hexec
      rw [DetectFlagsParse_eq_none_of_exec text cap hexec]
      constructor
      · intro h
        exact Or.inr ⟨cap, rfl, h⟩
      · rintro (hnot | ⟨cap', hcap', h⟩)
        · exact absurd hclause hnot
        · simp only [Option.some.injEq] at hcap'
          subst hcap'
          exact h

/-- Witness of C22 on `"AP"` (the loop ends with `found = 2`), with the two
ways to fail: `"G"` is no clause, and `"S,0"` has an ignore set of `0` only. -/
theorem c22_found_zero_exit_unreachable_witness :
    (∃ cap, pcre_exec "AP".toList = some cap ∧ scanFlagsTakesDefault cap.group2 = false ∧
      (scanFlags cap.group2 0 0 = FlagScan.returned ∨
       ∃ flags found, scanFlags cap.group2 0 0 = FlagScan.finished flags found ∧
         0 < found) ∧
      (∀ flags, scanFlags cap.group2 0 0 ≠ FlagScan.finished flags 0)) ∧
    scanFlags "AP".toList 0 0 = FlagScan.finished (TH_ACK ||| TH_PUSH) 2 ∧
    DetectFlagsParse "G".toList = none ∧ ¬ IsClause "G".toList ∧
    DetectFlagsParse "S,0".toList = none ∧
    pcre_exec "S,0".toList = some ⟨none, ['S'], some ['0']⟩ :=
  ⟨(c22_found_zero_exit_unreachable "AP".toList).1
      ((isClause_iff_pcre_exec _).mpr (by decide)),
   by decide, by decide,
   fun h => absurd ((isClause_iff_pcre_exec _).mp h) (by decide),
   by decide, by decide⟩

end DetectFlags
